import Mathlib

/-
  Verification development for the PSO (Particle Swarm Optimization) C library
  (`pso.h` / `pso.c`).

  Shallow embedding conventions:
  * C `double` values are modelled by `ℚ` (exact rational arithmetic stands in
    for IEEE-754 arithmetic; the places where IEEE NaN/infinity semantics are
    essential get a dedicated extended-value model `EDouble` below).
  * The C global random stream `rand()` is modelled by an explicit stream
    `r : ℕ → ℕ` together with a draw counter `k` threaded through the state;
    draw `k` yields `r k % (RAND_MAX + 1)`, mirroring rand()'s range contract.
  * The arrays `pos`, `vel`, `pos_b`, `pos_nb` (size × dim matrices), `fit`,
    `fit_b` (size vectors) and the connectivity matrix `comm` are modelled as
    total functions out of `ℕ`; entries outside the used index ranges are
    irrelevant to, and untouched by, every claim below.  C `memmove` row copies
    are modelled by replacing the whole row function (the entries beyond `dim`
    are never read).
  * Uninitialized C memory (the freshly malloc'ed arrays) is modelled as 0;
    the solver writes every entry it later reads.
  * The `for` loop of `pso_solve` with its `break` is modelled by folding a
    step function over the step indices, with an explicit `broke` control flag
    recording that the C loop has exited (the flag is control flow, not data).
-/

namespace PSO

/-- `PSO_MAX_SIZE` from pso.h. -/
def PSO_MAX_SIZE : ℕ := 100

/-- `PSO_INERTIA` (0.7298) from pso.h. -/
def PSO_INERTIA : ℚ := 7298 / 10000

/-- glibc's `RAND_MAX`. The claims below do not depend on its exact value,
only on `rand() % (RAND_MAX+1)` lying in `[0, RAND_MAX]`. -/
def RAND_MAX : ℕ := 2147483647

/-- `DBL_MAX` = (2 − 2⁻⁵²)·2¹⁰²³ = (2⁵³ − 1)·2⁹⁷¹, the largest finite double. -/
def DBL_MAX : ℚ := (2 ^ 53 - 1) * 2 ^ 971

/-- `RNG_UNIFORM()`: `rand()/(double)RAND_MAX`, draw number `k` of stream `r`. -/
def rngUniform (r : ℕ → ℕ) (k : ℕ) : ℚ :=
  ((r k % (RAND_MAX + 1) : ℕ) : ℚ) / (RAND_MAX : ℚ)

/-- `RNG_UNIFORM_INT(s)`: `rand() % s`, draw number `k` of stream `r`. -/
def rngUniformInt (r : ℕ → ℕ) (k : ℕ) (s : ℕ) : ℕ :=
  (r k % (RAND_MAX + 1)) % s

/-- `pso_settings_t` from pso.h.  Per-dimension bounds are functions of the
dimension index; `step` is the field the C library writes during `pso_solve`. -/
structure Settings where
  dim : ℕ
  range_lo : ℕ → ℚ
  range_hi : ℕ → ℚ
  goal : ℚ
  size : ℕ
  print_every : ℕ
  steps : ℕ
  step : ℕ
  c1 : ℚ
  c2 : ℚ
  w_max : ℚ
  w_min : ℚ
  clamp_pos : Bool
  nhood_strategy : ℕ
  nhood_size : ℕ
  w_strategy : ℕ

/-- `pso_calc_swarm_size`: `int size = 10. + 2. * sqrt(dim);` then capped at
`PSO_MAX_SIZE`.  The C double→int cast truncates toward zero; the value is
nonnegative, so the cast is the floor, and `⌊10 + 2·√d⌋ = 10 + ⌊√(4d)⌋ =
10 + Nat.sqrt (4*d)` (proved against `Real.sqrt` in `swarm_size_eq_floor`). -/
def pso_calc_swarm_size (dim : ℕ) : ℕ :=
  let size := 10 + Nat.sqrt (4 * dim)
  if size > PSO_MAX_SIZE then PSO_MAX_SIZE else size

/-- `pso_settings_new` defaults (lines 229-264 of pso.c).  The `step` field is
not initialized by the C code (malloc'ed memory); it is modelled as 0. -/
def pso_settings_new (dim : ℕ) (range_lo range_hi : ℚ) : Settings where
  dim := dim
  range_lo := fun _ => range_lo
  range_hi := fun _ => range_hi
  goal := 1 / 100000
  size := pso_calc_swarm_size dim
  print_every := 1000
  steps := 100000
  step := 0
  c1 := 1496 / 1000
  c2 := 1496 / 1000
  w_max := PSO_INERTIA
  w_min := 3 / 10
  clamp_pos := true
  nhood_strategy := 1
  nhood_size := 5
  w_strategy := 1

/-- `calc_inertia_lin_dec` with IEEE division made explicit: when
`dec_stage = 3*steps/4` is 0 and `step ≤ dec_stage`, the C expression
`(w_max - w_min) * (dec_stage - step) / dec_stage` is the IEEE division
`0.0 / 0.0 = NaN`, so the function returns NaN; that outcome is modelled as
`none`.  All other outcomes are finite and returned as `some`. -/
def calc_inertia_lin_dec_ieee (step : ℕ) (s : Settings) : Option ℚ :=
  let dec_stage := 3 * s.steps / 4
  if step ≤ dec_stage then
    if dec_stage = 0 then none
    else some (s.w_min + (s.w_max - s.w_min) * ((dec_stage : ℚ) - step) / dec_stage)
  else some s.w_min

/-- `calc_inertia_lin_dec` as used by the rational-valued solver model.
Note: `ℚ` division is total with `x / 0 = 0`, so at `dec_stage = 0` this
returns `w_min`; the genuine IEEE behaviour there (NaN) is captured by
`calc_inertia_lin_dec_ieee` and reported with claim C3. -/
def calc_inertia_lin_dec (step : ℕ) (s : Settings) : ℚ :=
  let dec_stage := 3 * s.steps / 4
  if step ≤ dec_stage then
    s.w_min + (s.w_max - s.w_min) * ((dec_stage : ℚ) - step) / dec_stage
  else s.w_min

/-- The inertia weight used at loop iteration `t`: the `w_strategy` switch in
`pso_solve` installs `calc_inertia_lin_dec` for `PSO_W_LIN_DEC` (1) and leaves
`w` at the constant `PSO_INERTIA` otherwise. -/
def inertiaAt (s : Settings) (t : ℕ) : ℚ :=
  if s.w_strategy = 1 then calc_inertia_lin_dec t s else PSO_INERTIA

/-- Pointwise update of a fitness vector (`fit[i] = v`). -/
def upd1 (f : ℕ → ℚ) (i : ℕ) (v : ℚ) : ℕ → ℚ :=
  fun x => if x = i then v else f x

/-- Pointwise update of one matrix entry (`m[i][d] = v`). -/
def upd2 (f : ℕ → ℕ → ℚ) (i d : ℕ) (v : ℚ) : ℕ → ℕ → ℚ :=
  fun x => if x = i then upd1 (f i) d v else f x

/-- Row copy (`memmove(m[i], row, dim * sizeof(double))`). -/
def setRow (f : ℕ → ℕ → ℚ) (i : ℕ) (row : ℕ → ℚ) : ℕ → ℕ → ℚ :=
  fun x => if x = i then row else f x

/-- The whole mutable state of one `pso_solve` call: the particle matrices,
the fitness vectors, the connectivity matrix, the `improved` flag, the
caller's `pso_result_t` (`error`, `gbest`), the caller's settings (whose
`step` field the C code writes), the RNG draw counter `k`, and the control
flag `broke` recording that the C `for` loop has exited via `break`. -/
structure PsoState where
  pos : ℕ → ℕ → ℚ
  vel : ℕ → ℕ → ℚ
  pos_b : ℕ → ℕ → ℚ
  pos_nb : ℕ → ℕ → ℚ
  fit : ℕ → ℚ
  fit_b : ℕ → ℚ
  comm : ℕ → ℕ → Bool
  improved : Bool
  broke : Bool
  error : ℚ
  gbest : ℕ → ℚ
  settings : Settings
  k : ℕ

/-- The scan of `inform` (lines 132-138 of pso.c): starting from `b_n = j`,
scan `i = 0 .. size-1` and replace the candidate by `i` exactly when
`comm[i][j]` holds and `fit_b[i]` is strictly below the candidate's. -/
def bestInformer (comm : ℕ → ℕ → Bool) (fit_b : ℕ → ℚ) (size j : ℕ) : ℕ :=
  (List.range size).foldl
    (fun b_n i => if comm i j = true ∧ fit_b i < fit_b b_n then i else b_n) j

/-- `inform` (lines 124-145 of pso.c): for each particle `j < size` copy the
personal-best row of the scan's winning informer into `pos_nb[j]`. -/
def inform (comm : ℕ → ℕ → Bool) (pos_b : ℕ → ℕ → ℚ) (fit_b : ℕ → ℚ)
    (old : ℕ → ℕ → ℚ) (size : ℕ) : ℕ → ℕ → ℚ :=
  fun j => if j < size then pos_b (bestInformer comm fit_b size j) else old j

/-- The informer the SPEC's words designate (refinement comparator for claim
C2, deliberately written from the spec, not from the source): among the
informers of `j` (including `j` itself), the one with the lowest
`personalBestFitness`, ties resolved in favour of the smallest index. -/
def specInformer (comm : ℕ → ℕ → Bool) (fit_b : ℕ → ℚ) (size j : ℕ) : ℕ :=
  let informers := (List.range size).filter (fun i => comm i j || decide (i = j))
  let m := informers.foldl (fun acc i => min acc (fit_b i)) (fit_b j)
  ((informers.filter (fun i => decide (fit_b i = m))).head?).getD j

/-- `init_comm_ring` (lines 153-178 of pso.c): `comm i j` says "particle `i`
informs particle `j`".  Row `i` gets `i` itself, its right neighbour and its
left neighbour (circularly).  For `size = 1` the C code writes out of bounds
(undefined behaviour); the guard `j < size` drops those writes. -/
def init_comm_ring (size : ℕ) : ℕ → ℕ → Bool :=
  fun i j =>
    if i < size ∧ j < size then
      decide (j = i) ||
        (if i = 0 then decide (j = i + 1) || decide (j = size - 1)
         else if i = size - 1 then decide (j = 0) || decide (j = i - 1)
         else decide (j = i + 1) || decide (j = i - 1))
    else false

/-- `init_comm_random` (lines 196-211 of pso.c): zero the matrix, then for each
`i` set the self-loop and draw `nhood_size` random targets `j`, setting
`comm i j`.  Returns the matrix together with the advanced draw counter. -/
def init_comm_random (r : ℕ → ℕ) (k : ℕ) (cfg : Settings) :
    (ℕ → ℕ → Bool) × ℕ :=
  (List.range cfg.size).foldl
    (fun (ck : (ℕ → ℕ → Bool) × ℕ) i =>
      let withSelf : ℕ → ℕ → Bool :=
        fun x y => if x = i ∧ y = i then true else ck.1 x y
      (List.range cfg.nhood_size).foldl
        (fun (ck2 : (ℕ → ℕ → Bool) × ℕ) _ =>
          let j := rngUniformInt r ck2.2 cfg.size
          (fun x y => if x = i ∧ y = j then true else ck2.1 x y, ck2.2 + 1))
        (withSelf, ck.2))
    ((fun _ _ => false), k)

/-- C `fmod` for the arguments arising in the Periodic branch of `pso_solve`
(numerator nonnegative, modulus positive), where the truncated remainder
coincides with the floor-based remainder. -/
def qfmod (x y : ℚ) : ℚ := x - y * ((Int.floor (x / y) : ℤ) : ℚ)

/-- Boundary handling (lines 441-461 of pso.c), applied to the freshly updated
`(position, velocity)` of one dimension.  `clamp_pos` selects Clamp (truncate
to the bound and zero the velocity) versus Periodic (wrap around, zero the
velocity). -/
def applyBoundary (s : Settings) (d : ℕ) (p v : ℚ) : ℚ × ℚ :=
  if s.clamp_pos then
    if p < s.range_lo d then (s.range_lo d, 0)
    else if p > s.range_hi d then (s.range_hi d, 0)
    else (p, v)
  else
    if p < s.range_lo d then
      (s.range_hi d - qfmod (s.range_lo d - p) (s.range_hi d - s.range_lo d), 0)
    else if p > s.range_hi d then
      (s.range_lo d + qfmod (p - s.range_hi d) (s.range_hi d - s.range_lo d), 0)
    else (p, v)

/-- The velocity produced by lines 429-435 of pso.c for particle `i`,
dimension `d`: `w*vel + rho1*(pos_b - pos) + rho2*(pos_nb - pos)` with
`rho1 = c1 * RNG_UNIFORM()` (draw `k`) and `rho2 = c2 * RNG_UNIFORM()`
(draw `k+1`). -/
def newVel (r : ℕ → ℕ) (w : ℚ) (st : PsoState) (i d : ℕ) : ℚ :=
  w * st.vel i d
    + st.settings.c1 * rngUniform r st.k * (st.pos_b i d - st.pos i d)
    + st.settings.c2 * rngUniform r (st.k + 1) * (st.pos_nb i d - st.pos i d)

/-- One dimension of the per-particle update (lines 427-462 of pso.c):
draw `rho1`, `rho2`, update velocity and position, apply the boundary policy.
Two RNG draws are consumed. -/
def moveDim (r : ℕ → ℕ) (w : ℚ) (i : ℕ) (st : PsoState) (d : ℕ) : PsoState :=
  let v := newVel r w st i d
  let p := st.pos i d + v
  let pv := applyBoundary st.settings d p v
  { st with
      vel := upd2 st.vel i d pv.2
      pos := upd2 st.pos i d pv.1
      k := st.k + 2 }

/-- The inner `for (d = 0; d < dim; d++)` loop moving particle `i`. -/
def moveParticle (r : ℕ → ℕ) (w : ℚ) (i : ℕ) (st : PsoState) : PsoState :=
  (List.range st.settings.dim).foldl (moveDim r w i) st

/-- Personal-best update (lines 468-472 of pso.c). -/
def updPBest (fi : ℚ) (i : ℕ) (st : PsoState) : PsoState :=
  if fi < st.fit_b i then
    { st with fit_b := upd1 st.fit_b i fi, pos_b := setRow st.pos_b i (st.pos i) }
  else st

/-- Global-best update (lines 475-480 of pso.c): on strict improvement set the
`improved` flag, the best error and the best position. -/
def updGBest (fi : ℚ) (i : ℕ) (st : PsoState) : PsoState :=
  if fi < st.error then
    { st with improved := true, error := fi, gbest := st.pos i }
  else st

/-- Fitness evaluation and the two best updates for particle `i`
(lines 464-480 of pso.c). -/
def evalUpdate (obj : (ℕ → ℚ) → ℚ) (i : ℕ) (st : PsoState) : PsoState :=
  updGBest (obj (st.pos i)) i
    (updPBest (obj (st.pos i)) i { st with fit := upd1 st.fit i (obj (st.pos i)) })

/-- The whole per-particle body of the update sweep. -/
def updateParticle (obj : (ℕ → ℚ) → ℚ) (r : ℕ → ℕ) (w : ℚ)
    (st : PsoState) (i : ℕ) : PsoState :=
  evalUpdate obj i (moveParticle r w i st)

/-- `inform_global` (lines 106-116): every particle's informant row becomes the
current global best. -/
def informGlobal (st : PsoState) : PsoState :=
  { st with
      pos_nb := fun j => if j < st.settings.size then st.gbest else st.pos_nb j }

/-- `inform_ring` (lines 180-188): `inform` over the (static) ring matrix. -/
def informRing (st : PsoState) : PsoState :=
  { st with
      pos_nb := inform st.comm st.pos_b st.fit_b st.pos_nb st.settings.size }

/-- `inform_random` (lines 213-225): if the previous step did not improve the
global best, regenerate the random connectivity matrix, then `inform`. -/
def informRandom (r : ℕ → ℕ) (st : PsoState) : PsoState :=
  if st.improved then
    { st with
        pos_nb := inform st.comm st.pos_b st.fit_b st.pos_nb st.settings.size }
  else
    let ck := init_comm_random r st.k st.settings
    { st with
        comm := ck.1
        k := ck.2
        pos_nb := inform ck.1 st.pos_b st.fit_b st.pos_nb st.settings.size }

/-- The `nhood_strategy` dispatch installed by the switch in `pso_solve`
(lines 334-349): 1 = ring, 2 = random, 0 and anything else = global. -/
def informPhase (r : ℕ → ℕ) (st : PsoState) : PsoState :=
  match st.settings.nhood_strategy with
  | 1 => informRing st
  | 2 => informRandom r st
  | _ => informGlobal st

/-- A uniform sample in `[range_lo d, range_hi d]` from draw `k`
(lines 373-374 of pso.c). -/
def sampleAt (r : ℕ → ℕ) (st : PsoState) (d k : ℕ) : ℚ :=
  st.settings.range_lo d
    + (st.settings.range_hi d - st.settings.range_lo d) * rngUniform r k

/-- One dimension of the swarm initialization (lines 371-384 of pso.c):
draw `a`, `b` uniformly in `[range_lo d, range_hi d]`, set position and
personal-best position to `a` and velocity to `(a-b)/2`. -/
def initDim (r : ℕ → ℕ) (i : ℕ) (st : PsoState) (d : ℕ) : PsoState :=
  let a := sampleAt r st d st.k
  let b := sampleAt r st d (st.k + 1)
  { st with
      pos := upd2 st.pos i d a
      pos_b := upd2 st.pos_b i d a
      vel := upd2 st.vel i d ((a - b) / 2)
      k := st.k + 2 }

/-- The inner dimension loop of the initialization of particle `i`. -/
def initMove (r : ℕ → ℕ) (i : ℕ) (st : PsoState) : PsoState :=
  (List.range st.settings.dim).foldl (initDim r i) st

/-- Initialization of particle `i` (lines 370-396 of pso.c): draw its
coordinates, evaluate its fitness, seed its personal best, and update the
global best on strict improvement. -/
def initParticle (obj : (ℕ → ℚ) → ℚ) (r : ℕ → ℕ) (st : PsoState) (i : ℕ) :
    PsoState :=
  let st1 := initMove r i st
  let fi := obj (st1.pos i)
  let st2 := { st1 with fit := upd1 st1.fit i fi, fit_b := upd1 st1.fit_b i fi }
  if fi < st2.error then { st2 with error := fi, gbest := st2.pos i } else st2

/-- The state of `pso_solve` before the initialization loop: connectivity
matrix built per the topology switch (ring and random consume RNG draws in
that order; the random build consumes `size * nhood_size` draws), error set
to `DBL_MAX`, `improved` cleared, caller's `gbest` buffer untouched. -/
def initialState (r : ℕ → ℕ) (cfg : Settings) (g : ℕ → ℚ) : PsoState :=
  let ck : (ℕ → ℕ → Bool) × ℕ :=
    if cfg.nhood_strategy = 1 then (init_comm_ring cfg.size, 0)
    else if cfg.nhood_strategy = 2 then init_comm_random r 0 cfg
    else ((fun _ _ => false), 0)
  { pos := fun _ _ => 0
    vel := fun _ _ => 0
    pos_b := fun _ _ => 0
    pos_nb := fun _ _ => 0
    fit := fun _ => 0
    fit_b := fun _ => 0
    comm := ck.1
    improved := false
    broke := false
    error := DBL_MAX
    gbest := g
    settings := cfg
    k := ck.2 }

/-- The initialization loop stopped after the first `j` particles. -/
def psoInitTo (obj : (ℕ → ℚ) → ℚ) (r : ℕ → ℕ) (cfg : Settings) (g : ℕ → ℚ)
    (j : ℕ) : PsoState :=
  (List.range j).foldl (initParticle obj r) (initialState r cfg g)

/-- The fully initialized swarm (initialization loop over all particles). -/
def psoInit (obj : (ℕ → ℚ) → ℚ) (r : ℕ → ℕ) (cfg : Settings) (g : ℕ → ℚ) :
    PsoState :=
  psoInitTo obj r cfg g cfg.size

/-- Loop iteration `t` of `pso_solve` (lines 403-488 of pso.c).  If the loop
already exited (`broke`) or `t` is past the step budget, nothing happens.
Otherwise the C body runs: `settings->step = t` is written, then the goal test
may `break` (recorded in `broke`), else the informants are computed, the
`improved` flag is reset and every particle is updated with the inertia weight
of iteration `t`. -/
def stepAt (obj : (ℕ → ℚ) → ℚ) (r : ℕ → ℕ) (st : PsoState) (t : ℕ) : PsoState :=
  if st.broke then st
  else if t < st.settings.steps then
    let st1 := { st with settings := { st.settings with step := t } }
    if st1.error ≤ st1.settings.goal then { st1 with broke := true }
    else
      let st2 := informPhase r st1
      let st3 := { st2 with improved := false }
      (List.range st3.settings.size).foldl
        (updateParticle obj r (inertiaAt st1.settings t)) st3
  else st

/-- The state after initialization and the first `n` loop iterations. -/
def psoRunTo (obj : (ℕ → ℚ) → ℚ) (r : ℕ → ℕ) (cfg : Settings) (g : ℕ → ℚ)
    (n : ℕ) : PsoState :=
  (List.range n).foldl (stepAt obj r) (psoInit obj r cfg g)

/-- `pso_solve`: initialization followed by the full loop over all `steps`
iterations (early exit via the goal test is part of `stepAt`). -/
def pso_solve (obj : (ℕ → ℚ) → ℚ) (r : ℕ → ℕ) (cfg : Settings) (g : ℕ → ℚ) :
    PsoState :=
  psoRunTo obj r cfg g cfg.steps

/-- Erase the `step` field of a settings record (the one field `pso_solve`
writes); used to state what `pso_solve` leaves unchanged. -/
def clearStep (s : Settings) : Settings := { s with step := 0 }

/-- "The loop body ran at iteration `t`": the loop had not exited, the step
budget was not exhausted, and the goal test failed. -/
def bodyRuns (obj : (ℕ → ℚ) → ℚ) (r : ℕ → ℕ) (cfg : Settings) (g : ℕ → ℚ)
    (t : ℕ) : Prop :=
  (psoRunTo obj r cfg g t).broke = false ∧
    t < (psoRunTo obj r cfg g t).settings.steps ∧
    (psoRunTo obj r cfg g t).settings.goal < (psoRunTo obj r cfg g t).error

/-- IEEE-754 double values as they matter to the best-update comparisons:
NaN, the two infinities, and finite values (modelled by `ℚ`). -/
inductive EDouble where
  | nan : EDouble
  | pinf : EDouble
  | ninf : EDouble
  | fin : ℚ → EDouble
deriving DecidableEq

/-- The C `<` comparison on doubles: any comparison involving NaN is false;
`-inf` is below everything except itself and NaN; `+inf` is above everything;
finite values compare as rationals. -/
def clt : EDouble → EDouble → Bool
  | EDouble.nan, _ => false
  | _, EDouble.nan => false
  | EDouble.ninf, EDouble.ninf => false
  | EDouble.ninf, _ => true
  | _, EDouble.ninf => false
  | EDouble.pinf, _ => false
  | EDouble.fin _, EDouble.pinf => true
  | EDouble.fin a, EDouble.fin b => decide (a < b)

/-- The per-particle best-tracking state of lines 468-480 of pso.c, with the
fitness values carried as IEEE extended values. -/
structure BestState where
  fit_b : EDouble
  pos_b : ℕ → ℚ
  error : EDouble
  gbest : ℕ → ℚ
  improved : Bool

/-- Lines 468-480 of pso.c over IEEE extended values: the personal-best update
(`fit[i] < fit_b[i]`) followed by the global-best update
(`fit[i] < solution->error`), both strict `<` comparisons. -/
def updateBests (fit : EDouble) (pos : ℕ → ℚ) (st : BestState) : BestState :=
  let st1 :=
    if clt fit st.fit_b then { st with fit_b := fit, pos_b := pos } else st
  if clt fit st1.error then
    { st1 with improved := true, error := fit, gbest := pos }
  else st1

/-- A concrete configuration for concrete evaluations: one particle, one
dimension, one step, degenerate bounds `[0, 0]`, global topology, constant
inertia, clamping on. -/
def cfg1 : Settings where
  dim := 1
  range_lo := fun _ => 0
  range_hi := fun _ => 0
  goal := 0
  size := 1
  print_every := 0
  steps := 1
  step := 0
  c1 := 1496 / 1000
  c2 := 1496 / 1000
  w_max := PSO_INERTIA
  w_min := 3 / 10
  clamp_pos := true
  nhood_strategy := 0
  nhood_size := 5
  w_strategy := 0

/-- A concrete RNG stream (all draws 0). -/
def r1 : ℕ → ℕ := fun _ => 0

/-- A concrete prior content for the caller's gbest buffer. -/
def g1 : ℕ → ℚ := fun _ => 99

/-- A concrete objective (constant 1). -/
def obj1 : (ℕ → ℚ) → ℚ := fun _ => 1

lemma foldl_preserve {α : Type} (f : PsoState → α → PsoState) (P : PsoState → Prop)
    (h : ∀ st a, P st → P (f st a)) :
    ∀ (l : List α) (st : PsoState), P st → P (l.foldl f st) := by
  intro l
  induction l with
  | nil => intro st hst; exact hst
  | cons a tl ih => intro st hst; exact ih _ (h st a hst)

lemma moveParticle_meta (r : ℕ → ℕ) (w : ℚ) (i : ℕ) (st : PsoState) :
    (moveParticle r w i st).error = st.error ∧
    (moveParticle r w i st).fit = st.fit ∧
    (moveParticle r w i st).fit_b = st.fit_b ∧
    (moveParticle r w i st).pos_b = st.pos_b ∧
    (moveParticle r w i st).pos_nb = st.pos_nb ∧
    (moveParticle r w i st).comm = st.comm ∧
    (moveParticle r w i st).improved = st.improved ∧
    (moveParticle r w i st).broke = st.broke ∧
    (moveParticle r w i st).gbest = st.gbest ∧
    (moveParticle r w i st).settings = st.settings := by
  unfold moveParticle
  exact foldl_preserve (moveDim r w i)
    (fun s => s.error = st.error ∧ s.fit = st.fit ∧ s.fit_b = st.fit_b ∧
      s.pos_b = st.pos_b ∧ s.pos_nb = st.pos_nb ∧ s.comm = st.comm ∧
      s.improved = st.improved ∧ s.broke = st.broke ∧ s.gbest = st.gbest ∧
      s.settings = st.settings)
    (fun s a hs => hs) _ st
    ⟨rfl, rfl, rfl, rfl, rfl, rfl, rfl, rfl, rfl, rfl⟩

lemma initMove_meta (r : ℕ → ℕ) (i : ℕ) (st : PsoState) :
    (initMove r i st).error = st.error ∧
    (initMove r i st).fit = st.fit ∧
    (initMove r i st).fit_b = st.fit_b ∧
    (initMove r i st).pos_nb = st.pos_nb ∧
    (initMove r i st).comm = st.comm ∧
    (initMove r i st).improved = st.improved ∧
    (initMove r i st).broke = st.broke ∧
    (initMove r i st).gbest = st.gbest ∧
    (initMove r i st).settings = st.settings := by
  unfold initMove
  exact foldl_preserve (initDim r i)
    (fun s => s.error = st.error ∧ s.fit = st.fit ∧ s.fit_b = st.fit_b ∧
      s.pos_nb = st.pos_nb ∧ s.comm = st.comm ∧ s.improved = st.improved ∧
      s.broke = st.broke ∧ s.gbest = st.gbest ∧ s.settings = st.settings)
    (fun s a hs => hs) _ st ⟨rfl, rfl, rfl, rfl, rfl, rfl, rfl, rfl, rfl⟩

lemma updPBest_meta (fi : ℚ) (i : ℕ) (st : PsoState) :
    (updPBest fi i st).error = st.error ∧
    (updPBest fi i st).improved = st.improved ∧
    (updPBest fi i st).broke = st.broke ∧
    (updPBest fi i st).gbest = st.gbest ∧
    (updPBest fi i st).pos = st.pos ∧
    (updPBest fi i st).settings = st.settings ∧
    (updPBest fi i st).comm = st.comm ∧
    (updPBest fi i st).pos_nb = st.pos_nb ∧
    (updPBest fi i st).k = st.k := by
  unfold updPBest
  split <;> exact ⟨rfl, rfl, rfl, rfl, rfl, rfl, rfl, rfl, rfl⟩

lemma updGBest_meta (fi : ℚ) (i : ℕ) (st : PsoState) :
    (updGBest fi i st).fit = st.fit ∧
    (updGBest fi i st).fit_b = st.fit_b ∧
    (updGBest fi i st).pos_b = st.pos_b ∧
    (updGBest fi i st).broke = st.broke ∧
    (updGBest fi i st).pos = st.pos ∧
    (updGBest fi i st).settings = st.settings ∧
    (updGBest fi i st).comm = st.comm ∧
    (updGBest fi i st).pos_nb = st.pos_nb ∧
    (updGBest fi i st).k = st.k := by
  unfold updGBest
  split <;> exact ⟨rfl, rfl, rfl, rfl, rfl, rfl, rfl, rfl, rfl⟩

lemma updGBest_error_le (fi : ℚ) (i : ℕ) (st : PsoState) :
    (updGBest fi i st).error ≤ st.error := by
  unfold updGBest
  split
  · exact le_of_lt (by assumption)
  · exact le_rfl

lemma evalUpdate_error_le (obj : (ℕ → ℚ) → ℚ) (i : ℕ) (st : PsoState) :
    (evalUpdate obj i st).error ≤ st.error := by
  unfold evalUpdate
  refine le_trans (updGBest_error_le _ _ _) ?_
  exact le_of_eq (updPBest_meta _ _ _).1

lemma updateParticle_error_le (obj : (ℕ → ℚ) → ℚ) (r : ℕ → ℕ) (w : ℚ)
    (st : PsoState) (i : ℕ) :
    (updateParticle obj r w st i).error ≤ st.error := by
  unfold updateParticle
  refine le_trans (evalUpdate_error_le _ _ _) ?_
  exact le_of_eq (moveParticle_meta r w i st).1

lemma informPhase_meta (r : ℕ → ℕ) (st : PsoState) :
    (informPhase r st).error = st.error ∧
    (informPhase r st).fit = st.fit ∧
    (informPhase r st).fit_b = st.fit_b ∧
    (informPhase r st).pos = st.pos ∧
    (informPhase r st).vel = st.vel ∧
    (informPhase r st).pos_b = st.pos_b ∧
    (informPhase r st).improved = st.improved ∧
    (informPhase r st).broke = st.broke ∧
    (informPhase r st).gbest = st.gbest ∧
    (informPhase r st).settings = st.settings := by
  unfold informPhase
  split
  · exact ⟨rfl, rfl, rfl, rfl, rfl, rfl, rfl, rfl, rfl, rfl⟩
  · unfold informRandom
    split <;> exact ⟨rfl, rfl, rfl, rfl, rfl, rfl, rfl, rfl, rfl, rfl⟩
  · exact ⟨rfl, rfl, rfl, rfl, rfl, rfl, rfl, rfl, rfl, rfl⟩

lemma initParticle_error_le (obj : (ℕ → ℚ) → ℚ) (r : ℕ → ℕ) (st : PsoState)
    (i : ℕ) : (initParticle obj r st i).error ≤ st.error := by
  unfold initParticle
  dsimp only
  split
  · exact le_of_lt (lt_of_lt_of_le (by assumption) (le_of_eq (initMove_meta r i st).1))
  · exact le_of_eq (initMove_meta r i st).1

lemma stepAt_error_le (obj : (ℕ → ℚ) → ℚ) (r : ℕ → ℕ) (st : PsoState) (t : ℕ) :
    (stepAt obj r st t).error ≤ st.error := by
  unfold stepAt
  split
  · exact le_rfl
  split
  · dsimp only
    split
    · exact le_rfl
    · refine le_trans (foldl_preserve _ (fun s => s.error ≤ st.error)
        (fun s a hs => le_trans (updateParticle_error_le _ _ _ _ _) hs) _ _ ?_) le_rfl
      exact le_of_eq (informPhase_meta r _).1
  · exact le_rfl

lemma psoRunTo_succ (obj : (ℕ → ℚ) → ℚ) (r : ℕ → ℕ) (cfg : Settings)
    (g : ℕ → ℚ) (n : ℕ) :
    psoRunTo obj r cfg g (n + 1) = stepAt obj r (psoRunTo obj r cfg g n) n := by
  unfold psoRunTo
  rw [List.range_succ, List.foldl_append]
  rfl

lemma psoInitTo_succ (obj : (ℕ → ℚ) → ℚ) (r : ℕ → ℕ) (cfg : Settings)
    (g : ℕ → ℚ) (j : ℕ) :
    psoInitTo obj r cfg g (j + 1) = initParticle obj r (psoInitTo obj r cfg g j) j := by
  unfold psoInitTo
  rw [List.range_succ, List.foldl_append]
  rfl

lemma psoInitTo_error_antitone (obj : (ℕ → ℚ) → ℚ) (r : ℕ → ℕ) (cfg : Settings)
    (g : ℕ → ℚ) {j j' : ℕ} (h : j ≤ j') :
    (psoInitTo obj r cfg g j').error ≤ (psoInitTo obj r cfg g j).error := by
  induction j', h using Nat.le_induction with
  | base => exact le_rfl
  | succ n hn ih =>
    rw [psoInitTo_succ]
    exact le_trans (initParticle_error_le _ _ _ _) ih

lemma psoRunTo_error_antitone (obj : (ℕ → ℚ) → ℚ) (r : ℕ → ℕ) (cfg : Settings)
    (g : ℕ → ℚ) {m n : ℕ} (h : m ≤ n) :
    (psoRunTo obj r cfg g n).error ≤ (psoRunTo obj r cfg g m).error := by
  induction n, h using Nat.le_induction with
  | base => exact le_rfl
  | succ n hn ih =>
    rw [psoRunTo_succ]
    exact le_trans (stepAt_error_le _ _ _ _) ih

lemma psoRunTo_zero (obj : (ℕ → ℚ) → ℚ) (r : ℕ → ℕ) (cfg : Settings)
    (g : ℕ → ℚ) : psoRunTo obj r cfg g 0 = psoInit obj r cfg g := rfl

/-- Claim C1: across any run of `pso_solve` the best error held in the caller's
result (`solution->error`) is monotonically non-increasing: along the
initialization loop (starting from its `DBL_MAX` seed), from any
initialization prefix to any point of the main loop, and along the main loop,
later values never exceed earlier ones — each update replaces the best error
only with a strictly smaller fitness. -/
theorem C1_bestError_monotone (obj : (ℕ → ℚ) → ℚ) (r : ℕ → ℕ) (cfg : Settings)
    (g : ℕ → ℚ) :
    (∀ j j', j ≤ j' →
      (psoInitTo obj r cfg g j').error ≤ (psoInitTo obj r cfg g j).error) ∧
    (∀ j n, j ≤ cfg.size →
      (psoRunTo obj r cfg g n).error ≤ (psoInitTo obj r cfg g j).error) ∧
    (∀ m n, m ≤ n →
      (psoRunTo obj r cfg g n).error ≤ (psoRunTo obj r cfg g m).error) := by
  refine ⟨fun j j' h => psoInitTo_error_antitone obj r cfg g h, fun j n hj => ?_,
    fun m n h => psoRunTo_error_antitone obj r cfg g h⟩
  refine le_trans (psoRunTo_error_antitone obj r cfg g (Nat.zero_le n)) ?_
  rw [psoRunTo_zero]
  exact psoInitTo_error_antitone obj r cfg g hj

/-- Witness for C1 at a concrete run. -/
theorem C1_witness :
    (psoRunTo obj1 r1 cfg1 g1 1).error ≤ (psoRunTo obj1 r1 cfg1 g1 0).error :=
  (C1_bestError_monotone obj1 r1 cfg1 g1).2.2 0 1 (by decide)

lemma bestInformer_zero (comm : ℕ → ℕ → Bool) (fit_b : ℕ → ℚ) (j : ℕ) :
    bestInformer comm fit_b 0 j = j := rfl

lemma bestInformer_succ (comm : ℕ → ℕ → Bool) (fit_b : ℕ → ℚ) (s j : ℕ) :
    bestInformer comm fit_b (s + 1) j =
      if comm s j = true ∧ fit_b s < fit_b (bestInformer comm fit_b s j) then s
      else bestInformer comm fit_b s j := by
  unfold bestInformer
  rw [List.range_succ, List.foldl_append]
  rfl

/-- Characterization of the `inform` scan: the winner attains the minimal
personal-best fitness among `j` and its informers below `size`, and it is
either `j` itself (kept whenever `j` attains the minimum, because replacement
needs a strictly smaller fitness) or the smallest-indexed informer whose
fitness is strictly below that of `j` and of every earlier informer. -/
lemma bestInformer_spec (comm : ℕ → ℕ → Bool) (fit_b : ℕ → ℚ) (s j : ℕ) :
    fit_b (bestInformer comm fit_b s j) ≤ fit_b j ∧
    (∀ i, i < s → comm i j = true →
      fit_b (bestInformer comm fit_b s j) ≤ fit_b i) ∧
    (bestInformer comm fit_b s j = j ∨
      (bestInformer comm fit_b s j < s ∧
       comm (bestInformer comm fit_b s j) j = true ∧
       fit_b (bestInformer comm fit_b s j) < fit_b j ∧
       ∀ i, i < bestInformer comm fit_b s j → comm i j = true →
         fit_b (bestInformer comm fit_b s j) < fit_b i)) := by
  induction s with
  | zero => exact ⟨le_rfl, fun i hi => absurd hi (Nat.not_lt_zero i), Or.inl rfl⟩
  | succ s ih =>
    rw [bestInformer_succ]
    obtain ⟨h1, h2, h3⟩ := ih
    by_cases hc : comm s j = true ∧ fit_b s < fit_b (bestInformer comm fit_b s j)
    · rw [if_pos hc]
      refine ⟨le_trans (le_of_lt hc.2) h1, ?_,
        Or.inr ⟨Nat.lt_succ_self s, hc.1, lt_of_lt_of_le hc.2 h1, ?_⟩⟩
      · intro i hi hcomm
        rcases Nat.lt_succ_iff_lt_or_eq.mp hi with hi' | rfl
        · exact le_trans (le_of_lt hc.2) (h2 i hi' hcomm)
        · exact le_rfl
      · intro i hi hcomm
        exact lt_of_lt_of_le hc.2 (h2 i hi hcomm)
    · rw [if_neg hc]
      refine ⟨h1, ?_, ?_⟩
      · intro i hi hcomm
        rcases Nat.lt_succ_iff_lt_or_eq.mp hi with hi' | rfl
        · exact h2 i hi' hcomm
        · exact le_of_not_lt (fun hlt => hc ⟨hcomm, hlt⟩)
      · rcases h3 with h | ⟨hlt, hcm, hstrict, hall⟩
        · exact Or.inl h
        · exact Or.inr ⟨Nat.lt_succ_of_lt hlt, hcm, hstrict, hall⟩

/-- Counterexample to claim C2 as stated: in a 3-particle ring (where every
particle informs every other), with personal-best fitnesses `[0, 0, 5]` and
pairwise different personal-best positions, particle `j = 1` ties with
informer `0` for the minimal fitness.  The spec's tie-break ("the smallest
index among equal-fitness ties wins") designates informer `0`, but the code
keeps the scan's initial candidate `j = 1`, so the written informant position
differs from the one the claim requires. -/
theorem C2_counterexample :
    inform (init_comm_ring 3) (fun i _ => (i : ℚ))
      (fun i => if i = 2 then 5 else 0) (fun _ _ => 0) 3 1 0 ≠
    (fun i _ => (i : ℚ))
      (specInformer (init_comm_ring 3) (fun i => if i = 2 then 5 else 0) 3 1) 0 := by
  decide

/-- Claim C2, amended: `pos_nb[j]` receives the personal-best position of the
scan winner, which attains the minimal `personalBestFitness` among `j` and its
informers; ties are resolved in favour of particle `j` itself whenever `j`
attains the minimum (the scan starts with candidate `j` and replaces only on
strictly smaller fitness); otherwise the winner is the smallest-indexed
informer attaining the minimum (every informer below it has strictly larger
fitness). -/
theorem C2_amended (comm : ℕ → ℕ → Bool) (pos_b : ℕ → ℕ → ℚ) (fit_b : ℕ → ℚ)
    (old : ℕ → ℕ → ℚ) (size j : ℕ) (hj : j < size) :
    inform comm pos_b fit_b old size j =
      pos_b (bestInformer comm fit_b size j) ∧
    fit_b (bestInformer comm fit_b size j) ≤ fit_b j ∧
    (∀ i, i < size → comm i j = true →
      fit_b (bestInformer comm fit_b size j) ≤ fit_b i) ∧
    (bestInformer comm fit_b size j = j ∨
      (comm (bestInformer comm fit_b size j) j = true ∧
       fit_b (bestInformer comm fit_b size j) < fit_b j ∧
       ∀ i, i < bestInformer comm fit_b size j → comm i j = true →
         fit_b (bestInformer comm fit_b size j) < fit_b i)) := by
  obtain ⟨h1, h2, h3⟩ := bestInformer_spec comm fit_b size j
  refine ⟨?_, h1, h2, ?_⟩
  · unfold inform
    rw [if_pos hj]
  · rcases h3 with h | ⟨_, hcm, hstrict, hall⟩
    · exact Or.inl h
    · exact Or.inr ⟨hcm, hstrict, hall⟩

/-- Witness for C2_amended at a concrete instance. -/
theorem C2_witness :
    inform (init_comm_ring 3) (fun i _ => (i : ℚ))
        (fun i => if i = 2 then 5 else 0) (fun _ _ => 0) 3 0 =
      (fun i _ => (i : ℚ))
        (bestInformer (init_comm_ring 3) (fun i => if i = 2 then 5 else 0) 3 0) :=
  (C2_amended (init_comm_ring 3) (fun i _ => (i : ℚ))
    (fun i => if i = 2 then 5 else 0) (fun _ _ => 0) 3 0 (by decide)).1

/-- Claim C3 (code divergence): with `maxSteps = 1` the decay stage
`3*maxSteps/4` is 0 and at step 0 the C code evaluates
`(w_max - w_min) * (0 - 0) / 0`, the IEEE division `0.0 / 0.0 = NaN`
(modelled as `none`), and returns NaN — not the guarded `wMin` the claim
requires.  For every positive decay stage the returned weight is the claim's
formula (that is `calc_inertia_lin_dec`, whose `if` matches the claim's case
split literally); the divergence is exactly the missing `decayStage == 0`
guard. -/
theorem C3_divergence :
    calc_inertia_lin_dec_ieee 0 { cfg1 with steps := 1, w_strategy := 1 } = none ∧
    some ({ cfg1 with steps := 1, w_strategy := 1 } : Settings).w_min ≠
      (none : Option ℚ) := by
  exact ⟨rfl, by decide⟩

lemma rngUniform_nonneg (r : ℕ → ℕ) (k : ℕ) : 0 ≤ rngUniform r k := by
  unfold rngUniform
  positivity

lemma rngUniform_le_one (r : ℕ → ℕ) (k : ℕ) : rngUniform r k ≤ 1 := by
  unfold rngUniform
  rw [div_le_one (by norm_num [RAND_MAX])]
  have h : r k % (RAND_MAX + 1) ≤ RAND_MAX :=
    Nat.lt_succ_iff.mp (Nat.mod_lt _ (Nat.succ_pos RAND_MAX))
  exact_mod_cast h

lemma sample_mem {lo hi u : ℚ} (h : lo ≤ hi) (h0 : 0 ≤ u) (h1 : u ≤ 1) :
    lo ≤ lo + (hi - lo) * u ∧ lo + (hi - lo) * u ≤ hi := by
  constructor <;> nlinarith

lemma sampleAt_mem (r : ℕ → ℕ) (st : PsoState) (d k : ℕ)
    (h : st.settings.range_lo d ≤ st.settings.range_hi d) :
    st.settings.range_lo d ≤ sampleAt r st d k ∧
      sampleAt r st d k ≤ st.settings.range_hi d :=
  sample_mem h (rngUniform_nonneg r k) (rngUniform_le_one r k)

/-- The Clamp branch of the boundary policy: the returned position is inside
the box, and whenever the incoming position was outside the box the returned
velocity is 0. -/
lemma applyBoundary_clamp (s : Settings) (d : ℕ) (p v : ℚ)
    (hc : s.clamp_pos = true) (hlo : s.range_lo d ≤ s.range_hi d) :
    s.range_lo d ≤ (applyBoundary s d p v).1 ∧
    (applyBoundary s d p v).1 ≤ s.range_hi d ∧
    ((p < s.range_lo d ∨ s.range_hi d < p) → (applyBoundary s d p v).2 = 0) := by
  unfold applyBoundary
  rw [hc]
  simp only [if_true]
  split_ifs with h1 h2
  · exact ⟨le_rfl, hlo, fun _ => rfl⟩
  · exact ⟨hlo, le_rfl, fun _ => rfl⟩
  · refine ⟨le_of_not_lt h1, le_of_not_lt h2, fun h => ?_⟩
    rcases h with h | h
    · exact absurd h h1
    · exact absurd h h2

lemma moveDim_pos_self (r : ℕ → ℕ) (w : ℚ) (i : ℕ) (st : PsoState) (d : ℕ) :
    (moveDim r w i st d).pos i d =
      (applyBoundary st.settings d (st.pos i d + newVel r w st i d)
        (newVel r w st i d)).1 := by
  simp [moveDim, upd2, upd1]

lemma moveDim_pos_other (r : ℕ → ℕ) (w : ℚ) (i : ℕ) (st : PsoState) (d : ℕ)
    (x d' : ℕ) (h : x ≠ i ∨ d' ≠ d) :
    (moveDim r w i st d).pos x d' = st.pos x d' := by
  by_cases hx : x = i
  · subst hx
    rcases h with h | h
    · exact absurd rfl h
    · simp [moveDim, upd2, upd1, h]
  · simp [moveDim, upd2, upd1, hx]

lemma initDim_pos_self (r : ℕ → ℕ) (i : ℕ) (st : PsoState) (d : ℕ) :
    (initDim r i st d).pos i d = sampleAt r st d st.k := by
  simp [initDim, upd2, upd1]

lemma initDim_pos_other (r : ℕ → ℕ) (i : ℕ) (st : PsoState) (d : ℕ)
    (x d' : ℕ) (h : x ≠ i ∨ d' ≠ d) :
    (initDim r i st d).pos x d' = st.pos x d' := by
  by_cases hx : x = i
  · subst hx
    rcases h with h | h
    · exact absurd rfl h
    · simp [initDim, upd2, upd1, h]
  · simp [initDim, upd2, upd1, hx]

/-- Generic dimension-loop lemma: folding a body that only writes position
entry `(i, d)` at dimension `d`, with an in-box value, over `List.range n`
leaves the settings alone, puts entries `(i, d)` for `d < n` inside the box
and leaves every other position entry unchanged. -/
lemma foldRange_pos (f : PsoState → ℕ → PsoState) (i : ℕ) (cfg : Settings)
    (hset : ∀ st d, (f st d).settings = st.settings)
    (hother : ∀ st d x d', x ≠ i ∨ d' ≠ d → (f st d).pos x d' = st.pos x d')
    (hself : ∀ st d, st.settings = cfg → d < cfg.dim →
      cfg.range_lo d ≤ (f st d).pos i d ∧ (f st d).pos i d ≤ cfg.range_hi d) :
    ∀ (n : ℕ) (st : PsoState), st.settings = cfg → n ≤ cfg.dim →
      ((List.range n).foldl f st).settings = cfg ∧
      (∀ d, d < n → cfg.range_lo d ≤ ((List.range n).foldl f st).pos i d ∧
        ((List.range n).foldl f st).pos i d ≤ cfg.range_hi d) ∧
      (∀ x d', (x ≠ i ∨ n ≤ d') →
        ((List.range n).foldl f st).pos x d' = st.pos x d') := by
  intro n
  induction n with
  | zero =>
    intro st hs _
    exact ⟨hs, fun d hd => absurd hd (Nat.not_lt_zero d), fun x d' _ => rfl⟩
  | succ n ih =>
    intro st hs hn
    have hn' : n ≤ cfg.dim := Nat.le_of_succ_le hn
    obtain ⟨ihset, ihrange, ihother⟩ := ih st hs hn'
    rw [List.range_succ, List.foldl_append, List.foldl_cons, List.foldl_nil]
    refine ⟨(hset _ _).trans ihset, ?_, ?_⟩
    · intro d hd
      rcases Nat.lt_succ_iff_lt_or_eq.mp hd with hd' | rfl
      · rw [hother _ _ i d (Or.inr (Nat.ne_of_lt hd'))]
        exact ihrange d hd'
      · exact hself _ d ihset (lt_of_lt_of_le (Nat.lt_succ_self d) hn)
    · intro x d' hx
      have h1 : (f ((List.range n).foldl f st) n).pos x d' =
          ((List.range n).foldl f st).pos x d' := by
        rcases hx with hx | hx
        · exact hother _ _ _ _ (Or.inl hx)
        · exact hother _ _ _ _ (Or.inr (by omega))
      rw [h1]
      refine ihother x d' ?_
      rcases hx with hx | hx
      · exact Or.inl hx
      · exact Or.inr (by omega)

lemma initMove_pos (r : ℕ → ℕ) (i : ℕ) (cfg : Settings)
    (hb : ∀ d, d < cfg.dim → cfg.range_lo d ≤ cfg.range_hi d)
    (st : PsoState) (hs : st.settings = cfg) :
    (initMove r i st).settings = cfg ∧
    (∀ d, d < cfg.dim → cfg.range_lo d ≤ (initMove r i st).pos i d ∧
      (initMove r i st).pos i d ≤ cfg.range_hi d) ∧
    (∀ x d', x ≠ i → (initMove r i st).pos x d' = st.pos x d') := by
  have key := foldRange_pos (initDim r i) i cfg
    (fun st d => rfl)
    (fun st d x d' h => initDim_pos_other r i st d x d' h)
    (fun st d hsd hd => by
      rw [initDim_pos_self]
      have hm := sampleAt_mem r st d st.k (by rw [hsd]; exact hb d hd)
      rw [hsd] at hm
      exact hm)
    cfg.dim st hs le_rfl
  unfold initMove
  rw [hs]
  exact ⟨key.1, key.2.1, fun x d' hx => key.2.2 x d' (Or.inl hx)⟩

lemma moveParticle_pos (r : ℕ → ℕ) (w : ℚ) (i : ℕ) (cfg : Settings)
    (hc : cfg.clamp_pos = true)
    (hb : ∀ d, d < cfg.dim → cfg.range_lo d ≤ cfg.range_hi d)
    (st : PsoState) (hs : st.settings = cfg) :
    (moveParticle r w i st).settings = cfg ∧
    (∀ d, d < cfg.dim → cfg.range_lo d ≤ (moveParticle r w i st).pos i d ∧
      (moveParticle r w i st).pos i d ≤ cfg.range_hi d) ∧
    (∀ x d', x ≠ i → (moveParticle r w i st).pos x d' = st.pos x d') := by
  have key := foldRange_pos (moveDim r w i) i cfg
    (fun st d => rfl)
    (fun st d x d' h => moveDim_pos_other r w i st d x d' h)
    (fun st d hsd hd => by
      rw [moveDim_pos_self, hsd]
      have hm := applyBoundary_clamp cfg d
        (st.pos i d + newVel r w st i d) (newVel r w st i d) hc (hb d hd)
      exact ⟨hm.1, hm.2.1⟩)
    cfg.dim st hs le_rfl
  unfold moveParticle
  rw [hs]
  exact ⟨key.1, key.2.1, fun x d' hx => key.2.2 x d' (Or.inl hx)⟩

lemma clearStep_fields {s s' : Settings} (h : clearStep s = clearStep s') :
    s.dim = s'.dim ∧ s.range_lo = s'.range_lo ∧ s.range_hi = s'.range_hi ∧
    s.goal = s'.goal ∧ s.size = s'.size ∧ s.steps = s'.steps ∧
    s.c1 = s'.c1 ∧ s.c2 = s'.c2 ∧ s.w_max = s'.w_max ∧ s.w_min = s'.w_min ∧
    s.clamp_pos = s'.clamp_pos ∧ s.nhood_strategy = s'.nhood_strategy ∧
    s.nhood_size = s'.nhood_size ∧ s.w_strategy = s'.w_strategy ∧
    s.print_every = s'.print_every := by
  have h1 := congrArg Settings.dim h
  have h2 := congrArg Settings.range_lo h
  have h3 := congrArg Settings.range_hi h
  have h4 := congrArg Settings.goal h
  have h5 := congrArg Settings.size h
  have h6 := congrArg Settings.steps h
  have h7 := congrArg Settings.c1 h
  have h8 := congrArg Settings.c2 h
  have h9 := congrArg Settings.w_max h
  have h10 := congrArg Settings.w_min h
  have h11 := congrArg Settings.clamp_pos h
  have h12 := congrArg Settings.nhood_strategy h
  have h13 := congrArg Settings.nhood_size h
  have h14 := congrArg Settings.w_strategy h
  have h15 := congrArg Settings.print_every h
  exact ⟨h1, h2, h3, h4, h5, h6, h7, h8, h9, h10, h11, h12, h13, h14, h15⟩

lemma evalUpdate_meta (obj : (ℕ → ℚ) → ℚ) (i : ℕ) (st : PsoState) :
    (evalUpdate obj i st).pos = st.pos ∧
    (evalUpdate obj i st).vel = st.vel ∧
    (evalUpdate obj i st).settings = st.settings ∧
    (evalUpdate obj i st).comm = st.comm ∧
    (evalUpdate obj i st).pos_nb = st.pos_nb ∧
    (evalUpdate obj i st).broke = st.broke ∧
    (evalUpdate obj i st).k = st.k := by
  unfold evalUpdate
  obtain ⟨-, -, -, gb, gp, gs, gc, gn, gk⟩ := updGBest_meta (obj (st.pos i)) i
    (updPBest (obj (st.pos i)) i { st with fit := upd1 st.fit i (obj (st.pos i)) })
  obtain ⟨-, -, pb, -, pp, ps, pc, pn, pk⟩ := updPBest_meta (obj (st.pos i)) i
    { st with fit := upd1 st.fit i (obj (st.pos i)) }
  refine ⟨gp.trans pp, ?_, gs.trans ps, gc.trans pc, gn.trans pn, gb.trans pb,
    gk.trans pk⟩
  · unfold updGBest updPBest
    split <;> split <;> rfl

/-- The C4 invariant: the solver may have rewritten only the `step` field of
the settings, and every in-use position entry lies inside the configured box. -/
def InvPos (cfg : Settings) (st : PsoState) : Prop :=
  clearStep st.settings = clearStep cfg ∧
  ∀ i d, i < cfg.size → d < cfg.dim →
    cfg.range_lo d ≤ st.pos i d ∧ st.pos i d ≤ cfg.range_hi d

lemma updateParticle_InvPos (obj : (ℕ → ℚ) → ℚ) (r : ℕ → ℕ) (w : ℚ)
    (cfg : Settings) (hc : cfg.clamp_pos = true)
    (hb : ∀ d, d < cfg.dim → cfg.range_lo d ≤ cfg.range_hi d)
    (st : PsoState) (i : ℕ) (h : InvPos cfg st) :
    InvPos cfg (updateParticle obj r w st i) := by
  obtain ⟨hset, hpos⟩ := h
  obtain ⟨hd, hlo, hhi, -, hsz, -, -, -, -, -, hcl, -, -, -, -⟩ :=
    clearStep_fields hset
  have hmp := moveParticle_pos r w i st.settings (by rw [hcl]; exact hc)
    (by intro d hd'; rw [hd] at hd'; rw [hlo, hhi]; exact hb d hd') st rfl
  obtain ⟨mset, mrange, mother⟩ := hmp
  have epos := (evalUpdate_meta obj i (moveParticle r w i st)).1
  have eset := (evalUpdate_meta obj i (moveParticle r w i st)).2.2.1
  constructor
  · show clearStep (evalUpdate obj i (moveParticle r w i st)).settings = clearStep cfg
    rw [eset, mset]
    exact hset
  · intro x d hx hd'
    show cfg.range_lo d ≤ (evalUpdate obj i (moveParticle r w i st)).pos x d ∧
      (evalUpdate obj i (moveParticle r w i st)).pos x d ≤ cfg.range_hi d
    rw [epos]
    by_cases hxi : x = i
    · subst hxi
      have hm := mrange d (by rw [hd]; exact hd')
      rw [hlo, hhi] at hm
      exact hm
    · rw [mother x d hxi]
      exact hpos x d hx hd'

lemma stepAt_InvPos (obj : (ℕ → ℚ) → ℚ) (r : ℕ → ℕ) (cfg : Settings)
    (hc : cfg.clamp_pos = true)
    (hb : ∀ d, d < cfg.dim → cfg.range_lo d ≤ cfg.range_hi d)
    (st : PsoState) (t : ℕ) (h : InvPos cfg st) :
    InvPos cfg (stepAt obj r st t) := by
  unfold stepAt
  split
  · exact h
  split
  · dsimp only
    split
    · exact ⟨h.1, h.2⟩
    · refine foldl_preserve _ (InvPos cfg)
        (fun s a hs => updateParticle_InvPos obj r _ cfg hc hb s a hs) _ _ ?_
      have hmeta := informPhase_meta r
        { st with settings := { st.settings with step := t } }
      constructor
      · show clearStep (informPhase r
          { st with settings := { st.settings with step := t } }).settings =
            clearStep cfg
        rw [hmeta.2.2.2.2.2.2.2.2.2]
        exact h.1
      · intro x d hx hd
        show cfg.range_lo d ≤ (informPhase r
            { st with settings := { st.settings with step := t } }).pos x d ∧
          (informPhase r
            { st with settings := { st.settings with step := t } }).pos x d ≤
            cfg.range_hi d
        rw [hmeta.2.2.2.1]
        exact h.2 x d hx hd
  · exact h

lemma psoInitTo_pos (obj : (ℕ → ℚ) → ℚ) (r : ℕ → ℕ) (cfg : Settings)
    (g : ℕ → ℚ) (hb : ∀ d, d < cfg.dim → cfg.range_lo d ≤ cfg.range_hi d) :
    ∀ j, (psoInitTo obj r cfg g j).settings = cfg ∧
      ∀ i d, i < j → d < cfg.dim →
        cfg.range_lo d ≤ (psoInitTo obj r cfg g j).pos i d ∧
        (psoInitTo obj r cfg g j).pos i d ≤ cfg.range_hi d := by
  intro j
  induction j with
  | zero => exact ⟨rfl, fun i d hi _ => absurd hi (Nat.not_lt_zero i)⟩
  | succ j ih =>
    obtain ⟨ihset, ihpos⟩ := ih
    rw [psoInitTo_succ]
    have him := initMove_pos r j cfg hb (psoInitTo obj r cfg g j) ihset
    have hpp : (initParticle obj r (psoInitTo obj r cfg g j) j).pos =
        (initMove r j (psoInitTo obj r cfg g j)).pos := by
      unfold initParticle
      dsimp only
      split <;> rfl
    have hss : (initParticle obj r (psoInitTo obj r cfg g j) j).settings =
        (initMove r j (psoInitTo obj r cfg g j)).settings := by
      unfold initParticle
      dsimp only
      split <;> rfl
    refine ⟨hss.trans him.1, ?_⟩
    intro i d hi hd
    rw [hpp]
    rcases Nat.lt_succ_iff_lt_or_eq.mp hi with hi' | rfl
    · rw [him.2.2 i d (Nat.ne_of_lt hi')]
      exact ihpos i d hi' hd
    · exact him.2.1 d hd

lemma psoRunTo_InvPos (obj : (ℕ → ℚ) → ℚ) (r : ℕ → ℕ) (cfg : Settings)
    (g : ℕ → ℚ) (hc : cfg.clamp_pos = true)
    (hb : ∀ d, d < cfg.dim → cfg.range_lo d ≤ cfg.range_hi d) (n : ℕ) :
    InvPos cfg (psoRunTo obj r cfg g n) := by
  induction n with
  | zero =>
    rw [psoRunTo_zero]
    have hi := psoInitTo_pos obj r cfg g hb cfg.size
    exact ⟨by rw [show psoInit obj r cfg g = psoInitTo obj r cfg g cfg.size from rfl,
        hi.1], fun i d hik hd => hi.2 i d hik hd⟩
  | succ n ih =>
    rw [psoRunTo_succ]
    exact stepAt_InvPos obj r cfg hc hb _ n ih

/-- Claim C4: under the Clamp boundary policy with well-ordered bounds, the
clamped per-dimension update always lands inside the box and zeroes the
velocity whenever the unclamped position was outside the box; consequently
every in-use position entry of the running swarm (after initialization and
after every step) lies inside the box. -/
theorem C4_clamp_invariant (obj : (ℕ → ℚ) → ℚ) (r : ℕ → ℕ) (cfg : Settings)
    (g : ℕ → ℚ) (hc : cfg.clamp_pos = true)
    (hb : ∀ d, d < cfg.dim → cfg.range_lo d ≤ cfg.range_hi d) :
    (∀ d p v, d < cfg.dim →
      cfg.range_lo d ≤ (applyBoundary cfg d p v).1 ∧
      (applyBoundary cfg d p v).1 ≤ cfg.range_hi d ∧
      ((p < cfg.range_lo d ∨ cfg.range_hi d < p) →
        (applyBoundary cfg d p v).2 = 0)) ∧
    (∀ n i d, i < cfg.size → d < cfg.dim →
      cfg.range_lo d ≤ (psoRunTo obj r cfg g n).pos i d ∧
      (psoRunTo obj r cfg g n).pos i d ≤ cfg.range_hi d) :=
  ⟨fun d p v _ => applyBoundary_clamp cfg d p v hc (hb d (by assumption)),
   fun n i d hi hd => (psoRunTo_InvPos obj r cfg g hc hb n).2 i d hi hd⟩

/-- Witness for C4 at a concrete run. -/
theorem C4_witness :
    cfg1.range_lo 0 ≤ (psoRunTo obj1 r1 cfg1 g1 1).pos 0 0 ∧
    (psoRunTo obj1 r1 cfg1 g1 1).pos 0 0 ≤ cfg1.range_hi 0 :=
  (C4_clamp_invariant obj1 r1 cfg1 g1 (by decide) (fun d _ => le_rfl)).2
    1 0 0 (by decide) (by decide)

lemma initMove_pos_other (r : ℕ → ℕ) (i : ℕ) (st : PsoState) (x : ℕ)
    (hx : x ≠ i) : (initMove r i st).pos x = st.pos x := by
  funext d'
  unfold initMove
  exact foldl_preserve (initDim r i) (fun s => s.pos x d' = st.pos x d')
    (fun s a hs => (initDim_pos_other r i s a x d' (Or.inl hx)).trans hs)
    _ st rfl

lemma initParticle_parts (obj : (ℕ → ℚ) → ℚ) (r : ℕ → ℕ) (st : PsoState)
    (i : ℕ) :
    (initParticle obj r st i).pos = (initMove r i st).pos ∧
    (initParticle obj r st i).fit i = obj ((initMove r i st).pos i) ∧
    (∀ x, x ≠ i → (initParticle obj r st i).fit x = st.fit x) ∧
    ((obj ((initMove r i st).pos i) < st.error ∧
        (initParticle obj r st i).error = obj ((initMove r i st).pos i) ∧
        (initParticle obj r st i).gbest = (initMove r i st).pos i) ∨
      (¬ obj ((initMove r i st).pos i) < st.error ∧
        (initParticle obj r st i).error = st.error ∧
        (initParticle obj r st i).gbest = st.gbest)) := by
  have hfit : (initMove r i st).fit = st.fit := (initMove_meta r i st).2.1
  have herr : (initMove r i st).error = st.error := (initMove_meta r i st).1
  have hgb : (initMove r i st).gbest = st.gbest :=
    (initMove_meta r i st).2.2.2.2.2.2.2.1
  unfold initParticle
  dsimp only
  split
  · rename_i hlt
    rw [herr] at hlt
    refine ⟨rfl, by simp [upd1], ?_, Or.inl ⟨hlt, rfl, rfl⟩⟩
    intro x hx
    simp [upd1, hx, hfit]
  · rename_i hlt
    rw [herr] at hlt
    refine ⟨rfl, by simp [upd1], ?_, Or.inr ⟨hlt, herr, hgb⟩⟩
    intro x hx
    simp [upd1, hx, hfit]

lemma psoInitTo_best (obj : (ℕ → ℚ) → ℚ) (r : ℕ → ℕ) (cfg : Settings)
    (g : ℕ → ℚ) :
    ∀ j, (∀ i, i < j → (psoInitTo obj r cfg g j).fit i =
          obj ((psoInitTo obj r cfg g j).pos i) ∧
          (psoInitTo obj r cfg g j).error ≤ (psoInitTo obj r cfg g j).fit i) ∧
      (((psoInitTo obj r cfg g j).error = DBL_MAX ∧
          (psoInitTo obj r cfg g j).gbest = g) ∨
        (∃ i, i < j ∧
          (psoInitTo obj r cfg g j).error = (psoInitTo obj r cfg g j).fit i ∧
          (psoInitTo obj r cfg g j).gbest = (psoInitTo obj r cfg g j).pos i)) := by
  intro j
  induction j with
  | zero =>
    exact ⟨fun i hi => absurd hi (Nat.not_lt_zero i), Or.inl ⟨rfl, rfl⟩⟩
  | succ j ih =>
    obtain ⟨ihfit, ihbest⟩ := ih
    rw [psoInitTo_succ]
    obtain ⟨hpos, hfi, hfo, hcases⟩ :=
      initParticle_parts obj r (psoInitTo obj r cfg g j) j
    have hrow : ∀ x, x ≠ j →
        (initParticle obj r (psoInitTo obj r cfg g j) j).pos x =
          (psoInitTo obj r cfg g j).pos x := by
      intro x hx
      rw [hpos]
      exact initMove_pos_other r j (psoInitTo obj r cfg g j) x hx
    have hrowj : (initParticle obj r (psoInitTo obj r cfg g j) j).pos j =
        (initMove r j (psoInitTo obj r cfg g j)).pos j := by rw [hpos]
    have herrle : (initParticle obj r (psoInitTo obj r cfg g j) j).error ≤
        (psoInitTo obj r cfg g j).error := initParticle_error_le obj r _ j
    constructor
    · intro i hi
      rcases Nat.lt_succ_iff_lt_or_eq.mp hi with hi' | rfl
      · have hne : i ≠ j := Nat.ne_of_lt hi'
        obtain ⟨ih1, ih2⟩ := ihfit i hi'
        refine ⟨?_, ?_⟩
        · rw [hfo i hne, hrow i hne]
          exact ih1
        · rw [hfo i hne]
          exact le_trans herrle ih2
      · refine ⟨by rw [hfi, hrowj], ?_⟩
        rcases hcases with ⟨hlt, he, -⟩ | ⟨hlt, he, -⟩
        · rw [he, hfi]
        · rw [he, hfi]
          exact le_of_not_lt hlt

    · rcases hcases with ⟨hlt, he, hg⟩ | ⟨hlt, he, hg⟩
      · refine Or.inr ⟨j, Nat.lt_succ_self j, ?_, ?_⟩
        · rw [he, hfi]
        · rw [hg, hrowj]
      · rcases ihbest with ⟨he0, hg0⟩ | ⟨i, hi, he0, hg0⟩
        · exact Or.inl ⟨he.trans he0, hg.trans hg0⟩
        · refine Or.inr ⟨i, Nat.lt_succ_of_lt hi, ?_, ?_⟩
          · rw [he, he0, hfo i (Nat.ne_of_lt hi)]
          · rw [hg, hg0, hrow i (Nat.ne_of_lt hi)]

/-- The objective used in the C5 counterexample: exactly `DBL_MAX` at the
origin (the initial particle position under the degenerate `[0,0]` bounds)
and 0 elsewhere — a perfectly representable finite C objective. -/
def obj2 : (ℕ → ℚ) → ℚ := fun x => if x 0 = 0 then DBL_MAX else 0

/-- Counterexample to claim C5 as stated: with one particle whose initial
fitness is exactly `DBL_MAX`, the best error does equal the minimum of the
initial fitnesses, but no global-best update fires (the comparison is strict
and the error was seeded with `DBL_MAX`), so the caller's gbest buffer keeps
its prior junk — which does not achieve that minimum. -/
theorem C5_counterexample :
    (psoInit obj2 r1 cfg1 g1).error = obj2 ((psoInit obj2 r1 cfg1 g1).pos 0) ∧
    obj2 ((psoInit obj2 r1 cfg1 g1).gbest) ≠ (psoInit obj2 r1 cfg1 g1).error := by
  have hpos00 : (initMove r1 0 (initialState r1 cfg1 g1)).pos 0 0 = 0 := by
    rw [show initMove r1 0 (initialState r1 cfg1 g1) =
        initDim r1 0 (initialState r1 cfg1 g1) 0 from rfl, initDim_pos_self]
    show (0 : ℚ) + ((0 : ℚ) - 0) * rngUniform r1 (initialState r1 cfg1 g1).k = 0
    ring
  have hfi : obj2 ((initMove r1 0 (initialState r1 cfg1 g1)).pos 0) = DBL_MAX := by
    simp [obj2, hpos00]
  obtain ⟨hpos, -, -, hcases⟩ :=
    initParticle_parts obj2 r1 (initialState r1 cfg1 g1) 0
  have hE : psoInit obj2 r1 cfg1 g1 =
      initParticle obj2 r1 (initialState r1 cfg1 g1) 0 := rfl
  have hS0err : (initialState r1 cfg1 g1).error = DBL_MAX := rfl
  have hS0g : (initialState r1 cfg1 g1).gbest = g1 := rfl
  rcases hcases with ⟨hlt, -, -⟩ | ⟨-, he, hg⟩
  · rw [hfi, hS0err] at hlt
    exact absurd hlt (lt_irrefl DBL_MAX)
  · rw [hS0err] at he
    rw [hS0g] at hg
    constructor
    · rw [hE, he, hpos]
      exact hfi.symm
    · rw [hE, he, hg]
      simp only [obj2, g1]
      norm_num [DBL_MAX]

/-- Claim C5, amended: after initialization the best error equals the minimum
over the swarm of the objective at the initial positions (for objectives that
only return values `≤ DBL_MAX`, i.e. finite doubles, and a nonempty swarm);
whenever that minimum is strictly below `DBL_MAX`, the caller's gbest buffer
holds the initial position of a particle achieving it.  (When the minimum
equals `DBL_MAX` exactly, no update fires and the buffer is never written —
the counterexample's corner.) -/
theorem C5_amended (obj : (ℕ → ℚ) → ℚ) (r : ℕ → ℕ) (cfg : Settings)
    (g : ℕ → ℚ) (hsz : 0 < cfg.size) (hfin : ∀ x, obj x ≤ DBL_MAX) :
    (∀ i, i < cfg.size →
      (psoInit obj r cfg g).error ≤ obj ((psoInit obj r cfg g).pos i)) ∧
    (∃ i, i < cfg.size ∧
      (psoInit obj r cfg g).error = obj ((psoInit obj r cfg g).pos i)) ∧
    ((psoInit obj r cfg g).error < DBL_MAX →
      ∃ i, i < cfg.size ∧
        (psoInit obj r cfg g).error = obj ((psoInit obj r cfg g).pos i) ∧
        (psoInit obj r cfg g).gbest = (psoInit obj r cfg g).pos i) := by
  obtain ⟨hfit, hbest⟩ := psoInitTo_best obj r cfg g cfg.size
  simp only [psoInit]
  refine ⟨?_, ?_, ?_⟩
  · intro i hi
    obtain ⟨h1, h2⟩ := hfit i hi
    rw [← h1]
    exact h2
  · rcases hbest with ⟨he, -⟩ | ⟨i, hi, he, -⟩
    · refine ⟨0, hsz, ?_⟩
      obtain ⟨h1, h2⟩ := hfit 0 hsz
      have hle : obj ((psoInitTo obj r cfg g cfg.size).pos 0) ≤ DBL_MAX := hfin _
      rw [he] at h2 ⊢
      rw [h1] at h2
      exact le_antisymm h2 hle
    · refine ⟨i, hi, ?_⟩
      rw [he, (hfit i hi).1]
  · intro hlt
    rcases hbest with ⟨he, -⟩ | ⟨i, hi, he, hg⟩
    · rw [he] at hlt
      exact absurd hlt (lt_irrefl DBL_MAX)
    · exact ⟨i, hi, by rw [he, (hfit i hi).1], hg⟩

/-- Witness for C5_amended at a concrete instance. -/
theorem C5_witness :
    ∃ i, i < cfg1.size ∧
      (psoInit obj1 r1 cfg1 g1).error = obj1 ((psoInit obj1 r1 cfg1 g1).pos i) :=
  (C5_amended obj1 r1 cfg1 g1 (by decide)
    (fun x => by unfold obj1 DBL_MAX; norm_num)).2.1

lemma initParticle_settings (obj : (ℕ → ℚ) → ℚ) (r : ℕ → ℕ) (st : PsoState)
    (i : ℕ) : (initParticle obj r st i).settings = st.settings := by
  unfold initParticle
  dsimp only
  split <;> exact (initMove_meta r i st).2.2.2.2.2.2.2.2

lemma initParticle_broke (obj : (ℕ → ℚ) → ℚ) (r : ℕ → ℕ) (st : PsoState)
    (i : ℕ) : (initParticle obj r st i).broke = st.broke := by
  unfold initParticle
  dsimp only
  split <;> exact (initMove_meta r i st).2.2.2.2.2.2.1

lemma initParticle_improved (obj : (ℕ → ℚ) → ℚ) (r : ℕ → ℕ) (st : PsoState)
    (i : ℕ) : (initParticle obj r st i).improved = st.improved := by
  unfold initParticle
  dsimp only
  split <;> exact (initMove_meta r i st).2.2.2.2.2.1

lemma psoInitTo_settings (obj : (ℕ → ℚ) → ℚ) (r : ℕ → ℕ) (cfg : Settings)
    (g : ℕ → ℚ) (j : ℕ) : (psoInitTo obj r cfg g j).settings = cfg := by
  unfold psoInitTo
  exact foldl_preserve (initParticle obj r) (fun s => s.settings = cfg)
    (fun s a hs => (initParticle_settings obj r s a).trans hs) _ _ rfl

lemma psoInitTo_broke (obj : (ℕ → ℚ) → ℚ) (r : ℕ → ℕ) (cfg : Settings)
    (g : ℕ → ℚ) (j : ℕ) : (psoInitTo obj r cfg g j).broke = false := by
  unfold psoInitTo
  exact foldl_preserve (initParticle obj r) (fun s => s.broke = false)
    (fun s a hs => (initParticle_broke obj r s a).trans hs) _ _ rfl

lemma psoInitTo_improved (obj : (ℕ → ℚ) → ℚ) (r : ℕ → ℕ) (cfg : Settings)
    (g : ℕ → ℚ) (j : ℕ) : (psoInitTo obj r cfg g j).improved = false := by
  unfold psoInitTo
  exact foldl_preserve (initParticle obj r) (fun s => s.improved = false)
    (fun s a hs => (initParticle_improved obj r s a).trans hs) _ _ rfl

lemma updateParticle_meta2 (obj : (ℕ → ℚ) → ℚ) (r : ℕ → ℕ) (w : ℚ)
    (st : PsoState) (i : ℕ) :
    (updateParticle obj r w st i).settings = st.settings ∧
    (updateParticle obj r w st i).comm = st.comm ∧
    (updateParticle obj r w st i).broke = st.broke := by
  unfold updateParticle
  obtain ⟨-, -, es, ec, -, eb, -⟩ := evalUpdate_meta obj i (moveParticle r w i st)
  obtain ⟨-, -, -, -, -, mc, -, mb, -, ms⟩ := moveParticle_meta r w i st
  exact ⟨es.trans ms, ec.trans mc, eb.trans mb⟩

lemma updGBest_cases (fi : ℚ) (i : ℕ) (st : PsoState) :
    (fi < st.error ∧ (updGBest fi i st).improved = true ∧
      (updGBest fi i st).error = fi) ∨
    (¬ fi < st.error ∧ updGBest fi i st = st) := by
  unfold updGBest
  split
  · exact Or.inl ⟨by assumption, rfl, rfl⟩
  · exact Or.inr ⟨by assumption, rfl⟩

lemma evalUpdate_cases (obj : (ℕ → ℚ) → ℚ) (i : ℕ) (st : PsoState) :
    (obj (st.pos i) < st.error ∧ (evalUpdate obj i st).improved = true ∧
      (evalUpdate obj i st).error = obj (st.pos i)) ∨
    (¬ obj (st.pos i) < st.error ∧
      (evalUpdate obj i st).improved = st.improved ∧
      (evalUpdate obj i st).error = st.error) := by
  unfold evalUpdate
  have hXe : (updPBest (obj (st.pos i)) i
      { st with fit := upd1 st.fit i (obj (st.pos i)) }).error = st.error :=
    (updPBest_meta (obj (st.pos i)) i _).1
  have hXi : (updPBest (obj (st.pos i)) i
      { st with fit := upd1 st.fit i (obj (st.pos i)) }).improved = st.improved :=
    (updPBest_meta (obj (st.pos i)) i _).2.1
  rcases updGBest_cases (obj (st.pos i)) i
    (updPBest (obj (st.pos i)) i
      { st with fit := upd1 st.fit i (obj (st.pos i)) }) with
      ⟨h1, h2, h3⟩ | ⟨h1, h2⟩
  · rw [hXe] at h1
    exact Or.inl ⟨h1, h2, h3⟩
  · rw [hXe] at h1
    refine Or.inr ⟨h1, ?_, ?_⟩
    · rw [h2]
      exact hXi
    · rw [h2]
      exact hXe

lemma updateParticle_cases (obj : (ℕ → ℚ) → ℚ) (r : ℕ → ℕ) (w : ℚ)
    (st : PsoState) (i : ℕ) :
    ((updateParticle obj r w st i).improved = true ∧
      (updateParticle obj r w st i).error < st.error) ∨
    ((updateParticle obj r w st i).improved = st.improved ∧
      (updateParticle obj r w st i).error = st.error) := by
  unfold updateParticle
  have hMe : (moveParticle r w i st).error = st.error := (moveParticle_meta r w i st).1
  have hMi : (moveParticle r w i st).improved = st.improved :=
    (moveParticle_meta r w i st).2.2.2.2.2.2.1
  rcases evalUpdate_cases obj i (moveParticle r w i st) with
      ⟨h1, h2, h3⟩ | ⟨h1, h2, h3⟩
  · rw [hMe] at h1
    refine Or.inl ⟨h2, ?_⟩
    rw [h3]
    exact h1
  · exact Or.inr ⟨h2.trans hMi, h3.trans hMe⟩

/-- After a particle sweep starting with the `improved` flag cleared, the flag
is set exactly when the sweep strictly lowered the best error. -/
lemma sweep_improved (obj : (ℕ → ℚ) → ℚ) (r : ℕ → ℕ) (w : ℚ) (l : List ℕ)
    (s0 : PsoState) (h0 : s0.improved = false) :
    ((l.foldl (updateParticle obj r w) s0).improved = true ↔
      (l.foldl (updateParticle obj r w) s0).error < s0.error) := by
  have key := foldl_preserve (updateParticle obj r w)
    (fun s => (s.improved = true ↔ s.error < s0.error) ∧ s.error ≤ s0.error)
    (fun s a hs => by
      rcases updateParticle_cases obj r w s a with ⟨h1, h2⟩ | ⟨h1, h2⟩
      · exact ⟨iff_of_true h1 (lt_of_lt_of_le h2 hs.2),
          le_trans (le_of_lt h2) hs.2⟩
      · exact ⟨h2 ▸ h1 ▸ hs.1, h2 ▸ hs.2⟩)
    l s0 ⟨iff_of_false (by rw [h0]; exact Bool.false_ne_true) (lt_irrefl _), le_rfl⟩
  exact key.1

lemma informPhase_random (r : ℕ → ℕ) (st : PsoState)
    (h : st.settings.nhood_strategy = 2) : informPhase r st = informRandom r st := by
  unfold informPhase
  rw [h]

/-- When the loop body actually runs (not broken, budget left, goal not yet
met), iteration `t` is: write `step := t`, compute the informants, clear
`improved`, and sweep all particles. -/
lemma stepAt_body_eq (obj : (ℕ → ℚ) → ℚ) (r : ℕ → ℕ) (st : PsoState) (t : ℕ)
    (h1 : st.broke = false) (h2 : t < st.settings.steps)
    (h3 : st.settings.goal < st.error) :
    stepAt obj r st t =
      (List.range (informPhase r
          { st with settings := { st.settings with step := t } }).settings.size).foldl
        (updateParticle obj r (inertiaAt { st.settings with step := t } t))
        { informPhase r { st with settings := { st.settings with step := t } }
            with improved := false } := by
  unfold stepAt
  rw [if_neg (by rw [h1]; exact Bool.false_ne_true)]
  rw [if_pos h2]
  dsimp only
  rw [if_neg (not_le.mpr h3)]

lemma stepAt_body_improved (obj : (ℕ → ℚ) → ℚ) (r : ℕ → ℕ) (st : PsoState)
    (t : ℕ) (h1 : st.broke = false) (h2 : t < st.settings.steps)
    (h3 : st.settings.goal < st.error) :
    ((stepAt obj r st t).improved = true ↔ (stepAt obj r st t).error < st.error) := by
  rw [stepAt_body_eq obj r st t h1 h2 h3]
  have hse : ({ informPhase r { st with settings := { st.settings with step := t } }
      with improved := false } : PsoState).error = st.error := by
    show (informPhase r { st with settings := { st.settings with step := t } }).error =
      st.error
    exact (informPhase_meta r _).1
  have key := sweep_improved obj r (inertiaAt { st.settings with step := t } t)
    (List.range (informPhase r
      { st with settings := { st.settings with step := t } }).settings.size)
    { informPhase r { st with settings := { st.settings with step := t } }
        with improved := false } rfl
  rw [hse] at key
  exact key

lemma stepAt_body_comm (obj : (ℕ → ℚ) → ℚ) (r : ℕ → ℕ) (st : PsoState) (t : ℕ)
    (h1 : st.broke = false) (h2 : t < st.settings.steps)
    (h3 : st.settings.goal < st.error)
    (hstrat : st.settings.nhood_strategy = 2) :
    (st.improved = true → (stepAt obj r st t).comm = st.comm) ∧
    (st.improved = false → (stepAt obj r st t).comm =
      (init_comm_random r st.k { st.settings with step := t }).1) := by
  rw [stepAt_body_eq obj r st t h1 h2 h3]
  have hfold : ∀ (l : List ℕ) (s : PsoState),
      (l.foldl (updateParticle obj r
        (inertiaAt { st.settings with step := t } t)) s).comm = s.comm :=
    fun l s => foldl_preserve _ (fun x => x.comm = s.comm)
      (fun x a hx => ((updateParticle_meta2 obj r _ x a).2.1).trans hx) l s rfl
  have hip : informPhase r { st with settings := { st.settings with step := t } } =
      informRandom r { st with settings := { st.settings with step := t } } :=
    informPhase_random r _ hstrat
  constructor
  · intro himp
    rw [hfold]
    show (informPhase r
      { st with settings := { st.settings with step := t } }).comm = st.comm
    rw [hip]
    unfold informRandom
    rw [if_pos (show ({ st with settings := { st.settings with step := t } } :
      PsoState).improved = true from himp)]
  · intro himp
    rw [hfold]
    show (informPhase r
        { st with settings := { st.settings with step := t } }).comm =
      (init_comm_random r st.k { st.settings with step := t }).1
    rw [hip]
    unfold informRandom
    rw [if_neg (show ¬ ({ st with settings := { st.settings with step := t } } :
      PsoState).improved = true from by
        rw [show ({ st with settings := { st.settings with step := t } } :
          PsoState).improved = st.improved from rfl, himp]
        exact Bool.false_ne_true)]

lemma stepAt_clearStep (obj : (ℕ → ℚ) → ℚ) (r : ℕ → ℕ) (st : PsoState) (t : ℕ) :
    clearStep (stepAt obj r st t).settings = clearStep st.settings := by
  unfold stepAt
  split
  · rfl
  split
  · dsimp only
    split
    · rfl
    · have hfold : ∀ (l : List ℕ) (s : PsoState) (w : ℚ),
          ((l.foldl (updateParticle obj r w) s)).settings = s.settings :=
        fun l s w => foldl_preserve _ (fun x => x.settings = s.settings)
          (fun x a hx => ((updateParticle_meta2 obj r w x a).1).trans hx) l s rfl
      rw [hfold]
      show clearStep (informPhase r
        { st with settings := { st.settings with step := t } }).settings =
          clearStep st.settings
      rw [(informPhase_meta r
        { st with settings := { st.settings with step := t } }).2.2.2.2.2.2.2.2.2]
      rfl
  · rfl

lemma psoRunTo_clearStep (obj : (ℕ → ℚ) → ℚ) (r : ℕ → ℕ) (cfg : Settings)
    (g : ℕ → ℚ) : ∀ n, clearStep (psoRunTo obj r cfg g n).settings = clearStep cfg := by
  intro n
  induction n with
  | zero =>
    rw [psoRunTo_zero]
    show clearStep (psoInitTo obj r cfg g cfg.size).settings = clearStep cfg
    rw [psoInitTo_settings]
  | succ n ih =>
    rw [psoRunTo_succ, stepAt_clearStep]
    exact ih

/-- Claim C6: under the Random topology, the informant graph is regenerated at
an executed step exactly when the `improved` flag is clear at its start; the
flag is clear before the first step (so the first executed step regenerates
unconditionally), and after an executed step it is set exactly when that step
strictly improved the global best.  Hence the graph is left unchanged at the
one step immediately following an improving step, and rebuilt otherwise. -/
theorem C6_random_regen (obj : (ℕ → ℚ) → ℚ) (r : ℕ → ℕ) (cfg : Settings)
    (g : ℕ → ℚ) (hstrat : cfg.nhood_strategy = 2) :
    (psoRunTo obj r cfg g 0).improved = false ∧
    (∀ t, bodyRuns obj r cfg g t →
      ((psoRunTo obj r cfg g (t + 1)).improved = true ↔
        (psoRunTo obj r cfg g (t + 1)).error < (psoRunTo obj r cfg g t).error)) ∧
    (∀ t, bodyRuns obj r cfg g t →
      ((psoRunTo obj r cfg g t).improved = true →
        (psoRunTo obj r cfg g (t + 1)).comm = (psoRunTo obj r cfg g t).comm) ∧
      ((psoRunTo obj r cfg g t).improved = false →
        (psoRunTo obj r cfg g (t + 1)).comm =
          (init_comm_random r (psoRunTo obj r cfg g t).k
            { (psoRunTo obj r cfg g t).settings with step := t }).1)) := by
  refine ⟨?_, ?_, ?_⟩
  · rw [psoRunTo_zero]
    exact psoInitTo_improved obj r cfg g cfg.size
  · intro t ht
    rw [psoRunTo_succ]
    exact stepAt_body_improved obj r _ t ht.1 ht.2.1 ht.2.2
  · intro t ht
    have hstrat' : (psoRunTo obj r cfg g t).settings.nhood_strategy = 2 := by
      rw [(clearStep_fields
        (psoRunTo_clearStep obj r cfg g t)).2.2.2.2.2.2.2.2.2.2.2.1]
      exact hstrat
    rw [psoRunTo_succ]
    exact stepAt_body_comm obj r _ t ht.1 ht.2.1 ht.2.2 hstrat'

/-- Witness for C6 at a concrete configuration using the Random topology. -/
theorem C6_witness :
    (psoRunTo obj1 r1 { cfg1 with nhood_strategy := 2 } g1 0).improved = false :=
  (C6_random_regen obj1 r1 { cfg1 with nhood_strategy := 2 } g1 rfl).1

lemma clt_nan_left (x : EDouble) : clt EDouble.nan x = false := by
  cases x <;> rfl

lemma clt_pinf_left (x : EDouble) : clt EDouble.pinf x = false := by
  cases x <;> rfl

/-- Counterexample to claim C7 as stated: an objective value of negative
infinity is an "infinite value", yet the C comparison `-inf < x` is true for
every finite `x`, so it does update (improve) the personal best and the
global best — it is not treated as positive infinity. -/
theorem C7_counterexample :
    (updateBests EDouble.ninf (fun _ => 5)
      { fit_b := EDouble.fin 0, pos_b := fun _ => 0, error := EDouble.fin 0,
        gbest := fun _ => 0, improved := false }).improved = true ∧
    (updateBests EDouble.ninf (fun _ => 5)
      { fit_b := EDouble.fin 0, pos_b := fun _ => 0, error := EDouble.fin 0,
        gbest := fun _ => 0, improved := false }).fit_b = EDouble.ninf ∧
    (updateBests EDouble.ninf (fun _ => 5)
      { fit_b := EDouble.fin 0, pos_b := fun _ => 0, error := EDouble.fin 0,
        gbest := fun _ => 0, improved := false }).error = EDouble.ninf :=
  ⟨rfl, rfl, rfl⟩

/-- Claim C7, amended: an objective value of NaN or positive infinity never
compares strictly below anything under the C `<`, so the per-particle
best-update block (lines 468-480) leaves the personal best, the global best
and the `improved` flag untouched.  (A negative-infinity value, by contrast,
does update both bests — the counterexample.) -/
theorem C7_nan_pinf_no_update (fit : EDouble) (pos : ℕ → ℚ) (st : BestState)
    (h : fit = EDouble.nan ∨ fit = EDouble.pinf) :
    updateBests fit pos st = st := by
  have h1 : ∀ y, clt fit y = false := by
    rcases h with h | h <;> subst h
    · exact clt_nan_left
    · exact clt_pinf_left
  simp [updateBests, h1]

/-- Witness for C7 at a concrete best-state. -/
theorem C7_witness :
    updateBests EDouble.nan (fun _ => 5)
      { fit_b := EDouble.fin 0, pos_b := fun _ => 0, error := EDouble.fin 0,
        gbest := fun _ => 0, improved := false } =
    { fit_b := EDouble.fin 0, pos_b := fun _ => 0, error := EDouble.fin 0,
      gbest := fun _ => 0, improved := false } :=
  C7_nan_pinf_no_update EDouble.nan (fun _ => 5) _ (Or.inl rfl)

lemma natSqrt_eight : Nat.sqrt 8 = 2 :=
  (Nat.eq_sqrt.mpr (by norm_num)).symm

/-- Counterexample to claim C8 as stated: at `dim = 2` the factory computes
`(int)(10 + 2*sqrt(2)) = (int)12.828… = 12` (the double→int cast truncates),
while `round(10 + 2*sqrt(2)) = 13`. -/
theorem C8_counterexample :
    ((pso_settings_new 2 0 1).size : ℤ) ≠
      min 100 (round ((10 : ℝ) + 2 * Real.sqrt 2)) := by
  have h1 : (pso_settings_new 2 0 1).size = 12 := by
    show pso_calc_swarm_size 2 = 12
    unfold pso_calc_swarm_size PSO_MAX_SIZE
    rw [show (4 * 2 : ℕ) = 8 from rfl, natSqrt_eight]
    rfl
  have hlo : (5 / 4 : ℝ) ≤ Real.sqrt 2 :=
    (Real.le_sqrt (by norm_num) (by norm_num)).mpr (by norm_num)
  have hhi : Real.sqrt 2 < 7 / 4 :=
    (Real.sqrt_lt' (by norm_num)).mpr (by norm_num)
  have h2 : round ((10 : ℝ) + 2 * Real.sqrt 2) = 13 := by
    rw [round_eq, Int.floor_eq_iff]
    constructor
    · push_cast
      linarith
    · push_cast
      linarith
  rw [h1, h2]
  norm_num

/-- Claim C8, amended: for every `dim`, the factory's default swarm size is
`min(100, ⌊10 + 2*sqrt(dim)⌋)` — the C double→int conversion truncates
(floors the nonnegative value) instead of rounding to nearest. -/
theorem C8_swarm_size_floor (dim : ℕ) (lo hi : ℚ) :
    ((pso_settings_new dim lo hi).size : ℤ) =
      min 100 ⌊(10 : ℝ) + 2 * Real.sqrt dim⌋ := by
  have hsqrt4 : Real.sqrt 4 = 2 := by
    rw [show (4 : ℝ) = 2 ^ 2 by norm_num]
    exact Real.sqrt_sq (by norm_num)
  have hmul : Real.sqrt ((4 * dim : ℕ) : ℝ) = 2 * Real.sqrt dim := by
    push_cast
    rw [Real.sqrt_mul (by norm_num : (0:ℝ) ≤ 4), hsqrt4]
  have hfloor : ⌊(10 : ℝ) + 2 * Real.sqrt dim⌋ = 10 + (Nat.sqrt (4 * dim) : ℤ) := by
    rw [← hmul, show ((10 : ℝ)) = ((10 : ℤ) : ℝ) by norm_num, Int.floor_int_add,
      Real.floor_real_sqrt_eq_nat_sqrt]
  rw [hfloor]
  show ((pso_calc_swarm_size dim : ℕ) : ℤ) = min 100 (10 + (Nat.sqrt (4 * dim) : ℤ))
  unfold pso_calc_swarm_size PSO_MAX_SIZE
  dsimp only
  split
  · rename_i hgt
    rw [min_eq_left (by exact_mod_cast Nat.le_of_lt hgt)]
    norm_num
  · rename_i hle
    rw [min_eq_right (by exact_mod_cast Nat.le_of_not_lt hle)]
    push_cast
    ring

lemma foldUpdate_settings (obj : (ℕ → ℚ) → ℚ) (r : ℕ → ℕ) (w : ℚ) :
    ∀ (l : List ℕ) (s : PsoState),
      (l.foldl (updateParticle obj r w) s).settings = s.settings :=
  fun l s => foldl_preserve _ (fun x => x.settings = s.settings)
    (fun x a hx => ((updateParticle_meta2 obj r w x a).1).trans hx) l s rfl

/-- Counterexample to claim C9 as stated: `pso_solve` writes
`settings->step = step` at every loop iteration (line 405 of pso.c), so after
a run with `steps = 1` the caller's configuration has `step = 0` even though
it was passed in with `step = 7` — the configuration is not left unmodified. -/
theorem C9_counterexample :
    (pso_solve obj1 r1 { cfg1 with step := 7 } g1).settings.step ≠
      ({ cfg1 with step := 7 } : Settings).step := by
  have h_set : (psoInit obj1 r1 { cfg1 with step := 7 } g1).settings =
      { cfg1 with step := 7 } :=
    psoInitTo_settings obj1 r1 _ g1 _
  have h_broke : (psoInit obj1 r1 { cfg1 with step := 7 } g1).broke = false :=
    psoInitTo_broke obj1 r1 _ g1 _
  have h_err : (psoInit obj1 r1 { cfg1 with step := 7 } g1).error = 1 := by
    obtain ⟨-, -, -, hcases⟩ :=
      initParticle_parts obj1 r1 (initialState r1 { cfg1 with step := 7 } g1) 0
    rcases hcases with ⟨-, he, -⟩ | ⟨hlt, -, -⟩
    · exact he
    · refine absurd ?_ hlt
      show (1 : ℚ) < DBL_MAX
      unfold DBL_MAX
      norm_num
  have hbody := stepAt_body_eq obj1 r1
    (psoInit obj1 r1 { cfg1 with step := 7 } g1) 0 h_broke
    (by rw [h_set]; decide)
    (by rw [h_set, h_err]; show (0 : ℚ) < 1; norm_num)
  show (stepAt obj1 r1 (psoInit obj1 r1 { cfg1 with step := 7 } g1) 0).settings.step ≠ 7
  rw [hbody, foldUpdate_settings obj1 r1]
  show (informPhase r1 { psoInit obj1 r1 { cfg1 with step := 7 } g1 with
      settings := { (psoInit obj1 r1 { cfg1 with step := 7 } g1).settings
        with step := 0 } }).settings.step ≠ 7
  rw [(informPhase_meta r1 _).2.2.2.2.2.2.2.2.2]
  decide

/-- Claim C9, amended: `pso_solve` leaves every field of the caller's
configuration unchanged except `step`, which it overwrites with the current
iteration index (line 405 of pso.c). -/
theorem C9_settings_preserved (obj : (ℕ → ℚ) → ℚ) (r : ℕ → ℕ) (cfg : Settings)
    (g : ℕ → ℚ) :
    clearStep (pso_solve obj r cfg g).settings = clearStep cfg :=
  psoRunTo_clearStep obj r cfg g cfg.steps

lemma updateParticle_sentinel (obj : (ℕ → ℚ) → ℚ) (r : ℕ → ℕ) (w : ℚ)
    (g : ℕ → ℚ) (hfin : ∀ x, DBL_MAX ≤ obj x) (st : PsoState) (i : ℕ)
    (h : st.error = DBL_MAX ∧ st.gbest = g) :
    (updateParticle obj r w st i).error = DBL_MAX ∧
    (updateParticle obj r w st i).gbest = g := by
  have hXe : (updPBest (obj ((moveParticle r w i st).pos i)) i
      { moveParticle r w i st with
        fit := upd1 (moveParticle r w i st).fit i
          (obj ((moveParticle r w i st).pos i)) }).error = st.error := by
    refine ((updPBest_meta _ _ _).1).trans ?_
    exact (moveParticle_meta r w i st).1
  have hXg : (updPBest (obj ((moveParticle r w i st).pos i)) i
      { moveParticle r w i st with
        fit := upd1 (moveParticle r w i st).fit i
          (obj ((moveParticle r w i st).pos i)) }).gbest = st.gbest := by
    refine ((updPBest_meta _ _ _).2.2.2.1).trans ?_
    exact (moveParticle_meta r w i st).2.2.2.2.2.2.2.2.1
  rcases updGBest_cases (obj ((moveParticle r w i st).pos i)) i
      (updPBest (obj ((moveParticle r w i st).pos i)) i
        { moveParticle r w i st with
          fit := upd1 (moveParticle r w i st).fit i
            (obj ((moveParticle r w i st).pos i)) }) with ⟨h1, -, -⟩ | ⟨-, h2⟩
  · rw [hXe, h.1] at h1
    exact absurd h1 (not_lt.mpr (hfin _))
  · constructor
    · show (updGBest (obj ((moveParticle r w i st).pos i)) i
        (updPBest (obj ((moveParticle r w i st).pos i)) i
          { moveParticle r w i st with
            fit := upd1 (moveParticle r w i st).fit i
              (obj ((moveParticle r w i st).pos i)) })).error = DBL_MAX
      rw [h2, hXe]
      exact h.1
    · show (updGBest (obj ((moveParticle r w i st).pos i)) i
        (updPBest (obj ((moveParticle r w i st).pos i)) i
          { moveParticle r w i st with
            fit := upd1 (moveParticle r w i st).fit i
              (obj ((moveParticle r w i st).pos i)) })).gbest = g
      rw [h2, hXg]
      exact h.2

lemma initParticle_sentinel (obj : (ℕ → ℚ) → ℚ) (r : ℕ → ℕ) (g : ℕ → ℚ)
    (hfin : ∀ x, DBL_MAX ≤ obj x) (st : PsoState) (i : ℕ)
    (h : st.error = DBL_MAX ∧ st.gbest = g) :
    (initParticle obj r st i).error = DBL_MAX ∧
    (initParticle obj r st i).gbest = g := by
  obtain ⟨-, -, -, hcases⟩ := initParticle_parts obj r st i
  rcases hcases with ⟨hlt, -, -⟩ | ⟨-, he, hg⟩
  · rw [h.1] at hlt
    exact absurd hlt (not_lt.mpr (hfin _))
  · exact ⟨he.trans h.1, hg.trans h.2⟩

lemma stepAt_sentinel (obj : (ℕ → ℚ) → ℚ) (r : ℕ → ℕ) (g : ℕ → ℚ)
    (hfin : ∀ x, DBL_MAX ≤ obj x) (st : PsoState) (t : ℕ)
    (h : st.error = DBL_MAX ∧ st.gbest = g) :
    (stepAt obj r st t).error = DBL_MAX ∧ (stepAt obj r st t).gbest = g := by
  unfold stepAt
  split
  · exact h
  split
  · dsimp only
    split
    · exact ⟨h.1, h.2⟩
    · refine foldl_preserve _
        (fun s => s.error = DBL_MAX ∧ s.gbest = g)
        (fun s a hs => updateParticle_sentinel obj r _ g hfin s a hs) _ _ ?_
      have hmeta := informPhase_meta r
        { st with settings := { st.settings with step := t } }
      constructor
      · show (informPhase r
          { st with settings := { st.settings with step := t } }).error = DBL_MAX
        rw [hmeta.1]
        exact h.1
      · show (informPhase r
          { st with settings := { st.settings with step := t } }).gbest = g
        rw [hmeta.2.2.2.2.2.2.2.2.1]
        exact h.2
  · exact h

/-- Claim C10: the best error is seeded with `DBL_MAX` and both it and the
caller's gbest buffer are written only on a strictly smaller fitness, so when
every objective value is `≥ DBL_MAX` the whole run returns with
`error = DBL_MAX` and the gbest buffer still holding its prior contents. -/
theorem C10_dblmax_untouched (obj : (ℕ → ℚ) → ℚ) (r : ℕ → ℕ) (cfg : Settings)
    (g : ℕ → ℚ) (hfin : ∀ x, DBL_MAX ≤ obj x) :
    (pso_solve obj r cfg g).error = DBL_MAX ∧ (pso_solve obj r cfg g).gbest = g := by
  have hinit : ∀ j, (psoInitTo obj r cfg g j).error = DBL_MAX ∧
      (psoInitTo obj r cfg g j).gbest = g := by
    intro j
    unfold psoInitTo
    exact foldl_preserve _ (fun s => s.error = DBL_MAX ∧ s.gbest = g)
      (fun s a hs => initParticle_sentinel obj r g hfin s a hs) _ _ ⟨rfl, rfl⟩
  have hrun : ∀ n, (psoRunTo obj r cfg g n).error = DBL_MAX ∧
      (psoRunTo obj r cfg g n).gbest = g := by
    intro n
    induction n with
    | zero => exact hinit cfg.size
    | succ n ih =>
      rw [psoRunTo_succ]
      exact stepAt_sentinel obj r g hfin _ n ih
  exact hrun cfg.steps

/-- Witness for C10 with the constant-`DBL_MAX` objective. -/
theorem C10_witness :
    (pso_solve (fun _ => DBL_MAX) r1 cfg1 g1).error = DBL_MAX ∧
    (pso_solve (fun _ => DBL_MAX) r1 cfg1 g1).gbest = g1 :=
  C10_dblmax_untouched (fun _ => DBL_MAX) r1 cfg1 g1 (fun _ => le_rfl)

end PSO
